import Mathlib

set_option maxRecDepth 100000
set_option maxHeartbeats 2000000

/-!
Verification development for the clade-naming pipeline
(`name_clades.py`: `name_clades` and `fill_taxonomy`).

The Python source is shallowly embedded: polars data frames become lists of
rows, Python dicts become association lists with unique keys, floats become
rationals, and the two recursive helpers that Python runs without a
termination guarantee (`find_parents`, `get_descendants`) take an explicit
fuel argument.  Where the Python code would raise an uncaught exception on
malformed input (a missing tree row, an unknown rank label), the embedding
returns a documented default value; no theorem below depends on such a path.
-/

/-! ### Association-list helpers (Python dict semantics: unique keys) -/

/-- Lookup of the first binding of a key in an association list. -/
def alGet? {α β : Type} [DecidableEq α] : List (α × β) → α → Option β
  | [], _ => none
  | (k, v) :: t, k' => if k = k' then some v else alGet? t k'

/-- Update a binding in place (keeping its position) or append it,
mirroring assignment into a Python dict. -/
def alSet {α β : Type} [DecidableEq α] : List (α × β) → α → β → List (α × β)
  | [], k, v => [(k, v)]
  | (k', v') :: t, k, v => if k' = k then (k, v) :: t else (k', v') :: alSet t k v

/-- Helper for `dedupFirst`: drop elements already seen. -/
def dedupFirstAux {α : Type} [DecidableEq α] (seen : List α) : List α → List α
  | [] => []
  | a :: t =>
    if seen.contains a then dedupFirstAux seen t
    else a :: dedupFirstAux (a :: seen) t

/-- Keep the first occurrence of every element, like iterating the keys of a
Python dict built by comprehension over a list. -/
def dedupFirst {α : Type} [DecidableEq α] (l : List α) : List α :=
  dedupFirstAux [] l

/-! ### String helpers mirroring the Python string operations used -/

/-- Index of the first occurrence of a pattern (as a character list) in a
character list, if any. -/
def subIdxAux (pat : List Char) : List Char → Nat → Option Nat
  | [], i => if pat = [] then some i else none
  | c :: t, i => if pat.isPrefixOf (c :: t) then some i else subIdxAux pat t (i + 1)

/-- Index of the first occurrence of substring `pat` in `s`
(Python `s.index(pat)` / `s.find(pat)`), if any. -/
def substrIdx? (s pat : String) : Option Nat :=
  subIdxAux pat.data s.data 0

/-- Whether `pat` occurs as a substring of `s` (Python `pat in s`). -/
def containsSub (s pat : String) : Bool :=
  (substrIdx? s pat).isSome

/-- Index just after the last occurrence start of `pat` in `s`: the largest
`i` such that `pat` occurs at `i`, if any. -/
def lastSubstrIdx? (s pat : String) : Option Nat :=
  let idxs := (List.range (s.length + 1)).filter
    (fun i => pat.data.isPrefixOf (s.data.drop i))
  idxs.getLast?

/-- Prefix of `s` before the first occurrence of `sep`
(Python `s.split(sep)[0]` for a nonempty separator). -/
def splitFirst (s sep : String) : String :=
  match substrIdx? s sep with
  | some i => ⟨s.data.take i⟩
  | none => s

/-- String made of the characters of `s` from position `i` on
(Python `s[i:]`). -/
def strDrop (s : String) (i : Nat) : String := ⟨s.data.drop i⟩

/-- String made of the first `i` characters of `s` (Python `s[:i]`). -/
def strTake (s : String) (i : Nat) : String := ⟨s.data.take i⟩

/-- Lower-casing, as Python `str.lower` on ASCII input. -/
def strLower (s : String) : String := ⟨s.data.map Char.toLower⟩

/-- Python `s.startswith(p)`. -/
def strStarts (s pre : String) : Bool := pre.data.isPrefixOf s.data

/-- Lexicographic order on code points, as Python and polars compare
strings. -/
def charListLt : List Char → List Char → Bool
  | [], [] => false
  | [], _ :: _ => true
  | _ :: _, [] => false
  | a :: as, b :: bs =>
    if a.toNat < b.toNat then true
    else if b.toNat < a.toNat then false
    else charListLt as bs

/-- Lexicographic string comparison. -/
def strLt (a b : String) : Bool := charListLt a.data b.data

/-- Split a character list at every occurrence of a nonempty separator
(Python `str.split(sep)` semantics).  The fuel is structural so the kernel
can evaluate it; every step consumes at least one character, so any fuel at
least the list length gives the exact split. -/
def splitOnListF (sep : List Char) : Nat → List Char → List (List Char)
  | _, [] => [[]]
  | 0, l => [l]
  | fuel + 1, c :: t =>
    if ¬ (sep = []) ∧ sep.isPrefixOf (c :: t) then
      [] :: splitOnListF sep fuel ((c :: t).drop sep.length)
    else
      match splitOnListF sep fuel t with
      | [] => [[c]]
      | h :: r => (c :: h) :: r

/-- Python `s.split(sep)` for a nonempty separator. -/
def strSplit (s sep : String) : List String :=
  (splitOnListF sep.data s.data.length s.data).map (fun l => ⟨l⟩)

/-- Value of a single digit character, if any. -/
def digitVal? (c : Char) : Option Nat :=
  if c.isDigit then some (c.toNat - 48) else none

/-- Value of a nonempty all-digit character list, if any. -/
def digitsVal? : List Char → Option Nat
  | [] => none
  | [c] => digitVal? c
  | c :: t =>
    match digitsVal? t, digitVal? c with
    | some v, some d => some (d * 10 ^ t.length + v)
    | _, _ => none

/-- Python `int(s)` on an optionally minus-signed digit string; `none`
stands for the `ValueError` raised on anything else. -/
def parseInt? (s : String) : Option Int :=
  match s.data with
  | '-' :: t => (digitsVal? t).map (fun n => -(n : Int))
  | l => (digitsVal? l).map (fun n => (n : Int))

/-! ### Rational arithmetic

Mathlib's `Sub`, `Mul`, `Div` and `abs` on `ℚ` do not reduce inside the
kernel, so the embedding computes with `Rat.divInt`-based equivalents; the
bridge lemmas right below prove them equal to the standard operations. -/

/-- Subtraction of rationals, kernel-computable. -/
def ratSub (a b : ℚ) : ℚ :=
  Rat.divInt (a.num * (b.den : ℤ) - b.num * (a.den : ℤ)) ((a.den : ℤ) * (b.den : ℤ))

/-- Multiplication of rationals, kernel-computable. -/
def ratMul (a b : ℚ) : ℚ := Rat.divInt (a.num * b.num) ((a.den : ℤ) * (b.den : ℤ))

/-- Absolute value of a rational, kernel-computable. -/
def ratAbs (q : ℚ) : ℚ := if q < 0 then Rat.divInt (-q.num) (q.den : ℤ) else q

/-! ### Data model -/

/-- One row of the tree table (`parent, node, nongtdb_group, genome, magset,
RED, novelty_red`).  `RED` is modelled as a rational. -/
structure TreeRow where
  parent : Int
  node : Int
  nongtdbGroup : Option String
  genome : Option String
  magset : Option String
  red : Option ℚ
  noveltyRed : Option String
deriving Repr, DecidableEq

/-- One row of the genome metadata table (`Name, Completeness,
Contamination`). -/
structure MetaRow where
  name : String
  completeness : ℚ
  contamination : ℚ
deriving Repr, DecidableEq

/-- One row of the node-naming output (`node, clade, genome_rep`). -/
structure NodeOut where
  node : Option Int
  clade : String
  genomeRep : String
deriving Repr, DecidableEq

/-- The six taxon keys of a per-genome taxonomy, in rank order; this is the
key list of `starting_counters` / `median_reds` in the source. -/
def taxa : List String := ["phylum", "class", "order", "family", "genus", "species"]

/-- `MEDIAN_RED_TAXONS` from the source. -/
def medianRedTaxons : List String := ["phylum", "class", "order", "family", "genus"]

/-- `BAC_RED_CUTOFFS` from the source, as exact rationals. -/
def bacRedCutoffs : List ℚ :=
  [Rat.divInt 3280941769231098 10000000000000000,
   Rat.divInt 449727838796469 1000000000000000,
   Rat.divInt 6083500718998613 10000000000000000,
   Rat.divInt 7576141066814935 10000000000000000,
   Rat.divInt 9220350796053899 10000000000000000]

/-- `ARC_RED_CUTOFFS` from the source, as exact rationals. -/
def arcRedCutoffs : List ℚ :=
  [Rat.divInt 2128708845277663 10000000000000000,
   Rat.divInt 35878546884559126 100000000000000000,
   Rat.divInt 5316295929627715 10000000000000000,
   Rat.divInt 7250725361353227 10000000000000000,
   Rat.divInt 9069458981600348 10000000000000000]

/-- `median_reds` lookup: zip of the five rank names with the cutoffs plus
`species -> 1`.  An unknown rank (a `KeyError` crash in Python) yields `0`. -/
def medianRed (cutoffs : List ℚ) (t : String) : ℚ :=
  if t = "species" then 1
  else match alGet? (medianRedTaxons.zip cutoffs) t with
    | some r => r
    | none => 0

/-- Position of a taxon in `taxa` (`taxa.index` / `taxon_levels`); an unknown
label (a Python `ValueError`/`KeyError` crash path) maps to `taxa.length`. -/
def taxonIdx (t : String) : Nat := taxa.indexOf t

/-- Python slice `taxa[taxa.index(a):taxa.index(b)]`. -/
def taxaRange (a b : String) : List String :=
  (taxa.drop (taxonIdx a)).take (taxonIdx b - taxonIdx a)

/-! ### Tree index -/

/-- All rows carrying a given node id (a polars `filter` on `node`). -/
def rowsWithNode (tree : List TreeRow) (n : Int) : List TreeRow :=
  tree.filter (fun r => r.node = n)

/-- First row carrying a given node id (`to_list()[0]` after the filter). -/
def firstRowWithNode (tree : List TreeRow) (n : Int) : Option TreeRow :=
  (rowsWithNode tree n).head?

/-- `parent_dict` lookup.  The Python dict comprehension lets later rows
overwrite earlier ones, so the last row with the node id wins. -/
def parentLookup (tree : List TreeRow) (n : Int) : Option Int :=
  (tree.reverse.find? (fun r => r.node = n)).map (fun r => r.parent)

/-- `find_parents`, with fuel standing in for Python's unbounded recursion:
chain of ancestors from the immediate parent up to (and including) the first
self-parent node, stopping early on a node id absent from the table. -/
def findParents (tree : List TreeRow) : Nat → Int → List Int
  | 0, _ => []
  | fuel + 1, n =>
    match parentLookup tree n with
    | none => []
    | some p => if n = p then [] else p :: findParents tree fuel p

/-! ### Novelty labels and RED lookups -/

/-- `get_novelty_red` applied to a filtered frame: first row's `novelty_red`,
split at the first space, split at the first slash, lower-cased.  `none` when
the frame is empty (`IndexError`) or the field is null (`AttributeError`);
both exceptions are caught by `get_info`. -/
def getNoveltyRed? (rows : List TreeRow) : Option String := do
  let r ← rows.head?
  let s ← r.noveltyRed
  pure (strLower (splitFirst (splitFirst s " ") "/"))

/-- `get_info`: the pair `(novelty_red of the parent, novelty_red of the
node)`, with the parent component forced to `""` when no row of the node
escapes the `"gtdb"` group, and both components `""` when an extraction
fails.  An empty row set for the node itself is an uncaught crash in Python;
the embedding returns `("", "")` there. -/
def getInfo (tree : List TreeRow) (n : Int) : String × String :=
  let dfSelf := rowsWithNode tree n
  match dfSelf.head? with
  | none => ("", "")
  | some r0 =>
    let dfPar := rowsWithNode tree r0.parent
    let dfGtdb := dfSelf.filter
      (fun r => match r.nongtdbGroup with
        | some g => ¬ (g = "gtdb")
        | none => False)
    if dfGtdb.length > 0 then
      match getNoveltyRed? dfSelf, getNoveltyRed? dfPar with
      | some a, some b => (b, a)
      | _, _ => ("", "")
    else
      match getNoveltyRed? dfSelf with
      | some a => ("", a)
      | none => ("", "")

/-- `get_node_red`: `0` for a self-parent node, otherwise the `RED` of the
parent row.  Missing rows or null `RED` (Python crashes) default to `0`. -/
def getNodeRed (tree : List TreeRow) (n : Int) : ℚ :=
  match firstRowWithNode tree n with
  | none => 0
  | some r =>
    if r.parent = n then 0
    else match firstRowWithNode tree r.parent with
      | none => 0
      | some rp => rp.red.getD 0

/-- `get_child_red`: the `RED` of the node's own first row (defaults as in
`getNodeRed`). -/
def getChildRed (tree : List TreeRow) (n : Int) : ℚ :=
  match firstRowWithNode tree n with
  | none => 0
  | some r => r.red.getD 0

/-- `child_red_closer`: the child's RED is strictly closer to the median
than the parent's (`abs(child_red - median_red) < abs(parent_red -
median_red)`, via the kernel-computable rational operations). -/
def childRedCloser (childRed parentRed medianR : ℚ) : Bool :=
  ratAbs (ratSub childRed medianR) < ratAbs (ratSub parentRed medianR)

/-- `get_vying_children`: internal children of `parent` (null genome, not the
self-parent row, not the current pending child) whose parent-side novelty
label equals `level`. -/
def getVyingChildren (tree : List TreeRow) (parent : Int) (level : String)
    (child : Option (Int × List String)) : List Int :=
  let currentChild : Int := match child with
    | some c => c.1
    | none => -1
  let immediate := (tree.filter
    (fun r => r.genome = none ∧ r.parent = parent ∧ ¬ (r.node = parent) ∧
      ¬ (r.node = currentChild))).map (fun r => r.node)
  immediate.filter (fun c => (getInfo tree c).1 = level)

/-! ### Per-genome taxonomy values -/

/-- First component of a `genome_taxonomy` tuple: an anchor node id, the
string literal `"GTDB"`, or Python `None`. -/
inductive NodeRef where
  | anchor (n : Int)
  | gtdbMark
  | noNode
deriving Repr, DecidableEq

/-- Second component of a `genome_taxonomy` tuple: a clade-name string or a
raw node id (the `("GTDB", parent)` case). -/
inductive TaxInfo where
  | str (s : String)
  | int (n : Int)
deriving Repr, DecidableEq

/-- A `genome_taxonomy` value: the initial empty string or a
`(node, name)` tuple. -/
inductive TaxVal where
  | empty
  | pair (ref : NodeRef) (info : TaxInfo)
deriving Repr, DecidableEq

/-- A map with exactly the six taxon keys, in the fixed insertion order of
`starting_counters` (phylum, class, order, family, genus, species). -/
structure SixMap (α : Type) where
  phylum : α
  cls : α
  ord : α
  fam : α
  gen : α
  spec : α
deriving Repr, DecidableEq

/-- Constant six-key map. -/
def SixMap.const {α : Type} (a : α) : SixMap α := ⟨a, a, a, a, a, a⟩

/-- Read a key (Python `d[taxon]`); an unknown key, a `KeyError` crash in
Python, yields the supplied default. -/
def SixMap.get {α : Type} (m : SixMap α) (t : String) (dflt : α) : α :=
  if t = "phylum" then m.phylum
  else if t = "class" then m.cls
  else if t = "order" then m.ord
  else if t = "family" then m.fam
  else if t = "genus" then m.gen
  else if t = "species" then m.spec
  else dflt

/-- Write a key; an unknown key (a Python crash path) leaves the map
unchanged. -/
def SixMap.set {α : Type} (m : SixMap α) (t : String) (v : α) : SixMap α :=
  if t = "phylum" then { m with phylum := v }
  else if t = "class" then { m with cls := v }
  else if t = "order" then { m with ord := v }
  else if t = "family" then { m with fam := v }
  else if t = "genus" then { m with gen := v }
  else if t = "species" then { m with spec := v }
  else m

/-- `d.items()` in insertion order. -/
def SixMap.items {α : Type} (m : SixMap α) : List (String × α) :=
  [("phylum", m.phylum), ("class", m.cls), ("order", m.ord),
   ("family", m.fam), ("genus", m.gen), ("species", m.spec)]

/-! ### The per-genome ancestor walk -/

/-- The `node_taxonomy` ledger: node id to (taxon to clade-name) map. -/
abbrev Ledger : Type := List (Int × List (String × String))

/-- Ledger read of a single `(node, rank)` cell. -/
def lGet (L : Ledger) (n : Int) (r : String) : Option String :=
  match alGet? L n with
  | none => none
  | some d => alGet? d r

/-- The mutable state carried through one genome's ancestor walk:
`genome_taxonomy`, the pending `child` candidate, the two shared
accumulators, and the `break` flag of the `for parent in parents` loop. -/
structure WalkState where
  gtax : SixMap TaxVal
  child : Option (Int × List String)
  nodesOut : List NodeOut
  ledger : Ledger
  stopped : Bool
deriving Repr, DecidableEq

/-- The naming loop of the pending-candidate block (source lines 255-261):
mint `<first-letter>__<genome>` for every not-yet-set non-species rank in the
candidate's range, recording each mint in the node-naming output and in a
fresh `taxon_taxonomy` dict. -/
def mintRanks (genome : String) (childNode : Int) (ranks : List String)
    (gtax : SixMap TaxVal) (nodesOut : List NodeOut) :
    SixMap TaxVal × List NodeOut × List (String × String) :=
  ranks.foldl
    (fun st r =>
      let (g, no, tt) := st
      if g.get r TaxVal.empty = TaxVal.empty ∧ ¬ (r = "species") then
        let cladeName := strTake r 1 ++ "__" ++ genome
        (g.set r (TaxVal.pair (NodeRef.anchor childNode) (TaxInfo.str cladeName)),
         no ++ [⟨some childNode, cladeName, genome⟩],
         alSet tt r cladeName)
      else st)
    (gtax, nodesOut, [])

/-- The `if child:` block of the walk (source lines 236-265).  Decides
whether to finalize the pending candidate against the current ancestor,
possibly truncating its rank range, and unconditionally clears the
candidate.  Returns the updated state together with the (possibly
overwritten) `skip_parent` flag. -/
def pendingPhase (tree : List TreeRow) (cutoffs : List ℚ) (genome : String)
    (parent : Int) (nreds : List String) (nb : String × String) (skip0 : Bool)
    (s : WalkState) : WalkState × Bool :=
  match s.child with
  | none => (s, skip0)
  | some (c0, cranks) =>
    let cr0 := cranks.headD ""
    let nr0 := nreds.headD ""
    let nameWith : Option (List String) × Bool :=
      if cr0 = nr0 ∨ (nr0 = "" ∧ cr0 = nb.2) then
        let childRed := getNodeRed tree c0
        let parentRed := getNodeRed tree parent
        let med := medianRed cutoffs cr0
        if childRedCloser childRed parentRed med then
          (some cranks, ¬ (nr0 = ""))
        else
          (if cranks.tail.tail = [] then none else some cranks.tail, skip0)
      else (some cranks, skip0)
    match nameWith with
    | (none, skip) => ({ s with child := none }, skip)
    | (some ranks, skip) =>
      let (g, no, tt) := mintRanks genome c0 ranks s.gtax s.nodesOut
      let L := if tt = [] then s.ledger else alSet s.ledger c0 tt
      ({ s with gtax := g, nodesOut := no, ledger := L, child := none }, skip)

/-- The tail of a walk iteration (source lines 270-292): consult the ledger
at the ancestor and stop on a hit, otherwise either record the GTDB
termination or install the ancestor as the new pending candidate. -/
def consultPhase (tree : List TreeRow) (cutoffs : List ℚ) (parent : Int)
    (nreds : List String) (nb : String × String) (s : WalkState) : WalkState :=
  match alGet? s.ledger parent with
  | some d =>
    { s with
      gtax := d.foldl
        (fun g tv => g.set tv.1 (TaxVal.pair (NodeRef.anchor parent) (TaxInfo.str tv.2)))
        s.gtax,
      stopped := true }
  | none =>
    if nreds.headD "" = "" then
      let childRed := getChildRed tree parent
      let parentRed := getNodeRed tree parent
      let med := medianRed cutoffs nb.2
      let nIdx0 := taxonIdx nb.2
      let nIdx := if ¬ childRedCloser childRed parentRed med then nIdx0 + 1 else nIdx0
      if nIdx = 0 then { s with stopped := true }
      else
        let gn := taxa.getD (nIdx - 1) ""
        { s with
          gtax := s.gtax.set gn (TaxVal.pair NodeRef.gtdbMark (TaxInfo.int parent)),
          stopped := true }
    else { s with child := some (parent, nreds) }

/-- The novelty-interval resolution at the top of a walk iteration (source
lines 215-234): the rank list the ancestor's edge could originate, and the
vying-children `skip_parent` flag of the same-taxon case. -/
def noveltyPhase (tree : List TreeRow) (cutoffs : List ℚ) (parent : Int)
    (child : Option (Int × List String)) : List String × Bool :=
  let nb := getInfo tree parent
  if nb.1 = nb.2 then
    let vying := getVyingChildren tree parent nb.1 child
    let parentRed := getNodeRed tree parent
    let med := medianRed cutoffs nb.1
    ([nb.1], vying.any (fun c => childRedCloser (getNodeRed tree c) parentRed med))
  else if ¬ (nb.1 = "") then (taxaRange nb.1 nb.2, false)
  else ([""], false)

/-- The body of a walk iteration after the novelty interval is known:
pending-candidate block, `skip_parent` continue, ledger consult. -/
def walkBody (tree : List TreeRow) (cutoffs : List ℚ) (genome : String)
    (parent : Int) (nreds : List String) (nb : String × String) (skip0 : Bool)
    (s : WalkState) : WalkState :=
  let s1Skip := pendingPhase tree cutoffs genome parent nreds nb skip0 s
  if s1Skip.2 then s1Skip.1
  else consultPhase tree cutoffs parent nreds nb s1Skip.1

/-- One iteration of `for parent in parents` (source lines 214-292):
novelty-interval resolution with the vying-children check, the pending
candidate block, the `skip_parent` continue, and the ledger consult. -/
def walkStep (tree : List TreeRow) (cutoffs : List ℚ) (genome : String)
    (s : WalkState) (parent : Int) : WalkState :=
  if s.stopped then s
  else
    let nredsSkip := noveltyPhase tree cutoffs parent s.child
    walkBody tree cutoffs genome parent nredsSkip.1 (getInfo tree parent) nredsSkip.2 s

/-! ### Post-walk assembly -/

/-- The species label derivation (source lines 381-383): `"s"` plus
everything of the genus clade name after the position of `"g__"` plus a
space plus the *current* genome's id.  A clade name without `"g__"` is a
Python `ValueError` crash; the embedding then uses position `0`. -/
def speciesFromGenus (cladeName genome : String) : String :=
  let gi := (substrIdx? cladeName "g__").getD 0
  "s" ++ strDrop cladeName (gi + 1) ++ " " ++ genome

/-- The rendering loop (source lines 385-392): start from the domain,
append `";" ++ name` for every string-valued rank, silently skip empty
ranks (`IndexError`), and *reset* the accumulator to the decimal node id on
an integer-valued rank (`TypeError`). -/
def renderTaxonomy (domain : String) (gtax : SixMap TaxVal) : String :=
  gtax.items.foldl
    (fun acc tv =>
      match tv.2 with
      | TaxVal.empty => acc
      | TaxVal.pair _ (TaxInfo.str s) => acc ++ ";" ++ s
      | TaxVal.pair _ (TaxInfo.int n) => toString n)
    domain

/-- Whether the first character of a token is a digit
(`taxon[0].isdigit()`); an empty token is a Python crash path, read as
false here. -/
def headIsDigit (s : String) : Bool :=
  match s.data with
  | [] => false
  | c :: _ => c.isDigit

/-- Python list indexing with negative wrap-around into the six taxon keys
(`[g for g in genome_taxonomy.keys()][j]`); out-of-range (an `IndexError`
crash) yields `""`, which makes the subsequent write a no-op. -/
def taxaAt (j : Int) : String :=
  if 0 ≤ j ∧ j < 6 then taxa.getD j.toNat ""
  else if -6 ≤ j ∧ j < 0 then taxa.getD (j + 6).toNat ""
  else ""

/-- The "use previous parent taxonomy" block (source lines 299-315): find
the trailblazer genome that minted the highest already-set clade, cut its
taxonomy just before that clade, and copy the cut tokens downward into the
ranks above the highest one (node ids becoming `("GTDB", id)` entries). -/
def inheritSection (gOut : List (String × String)) (nodesOut : List NodeOut)
    (gtax : SixMap TaxVal) : SixMap TaxVal :=
  match (gtax.items.enum.filter (fun p => ¬ (p.2.2 = TaxVal.empty))).head? with
  | none => gtax
  | some (hi, _, hval) =>
    if hi = 0 then gtax
    else
      match hval with
      | TaxVal.empty => gtax
      | TaxVal.pair NodeRef.gtdbMark _ => gtax
      | TaxVal.pair _ (TaxInfo.int _) => gtax
      | TaxVal.pair _ (TaxInfo.str clade) =>
        let tg := (((nodesOut.filter (fun r => r.clade = clade)).map
          (fun r => r.genomeRep)).headD "")
        let tt := (((gOut.filter (fun r => r.1 = tg)).map (fun r => r.2)).headD "")
        let ancestral := splitFirst tt (";" ++ clade)
        ((strSplit ancestral ";").reverse.enum).foldl
          (fun g it =>
            let (i, tok) := it
            if strStarts tok "d__" then g
            else
              let key := taxaAt ((hi : Int) - 1 - (i : Int))
              if headIsDigit tok then
                g.set key (TaxVal.pair NodeRef.gtdbMark (TaxInfo.int ((parseInt? tok).getD 0)))
              else
                g.set key (TaxVal.pair NodeRef.noNode (TaxInfo.str tok)))
          gtax

/-- `is_mid_taxa` (source lines 319-322). -/
def isMidTaxa (prenamed : List String) (t : String) : Bool :=
  prenamed.any (fun p => taxonIdx t < taxonIdx p)

/-- `not_gtdb` (source lines 324-325). -/
def notGtdbBound (nb : String × String) : Bool := ¬ (nb.1 = "")

/-- `within_taxon_bounds` (source lines 327-329). -/
def withinTaxonBounds (nb : String × String) (t : String) : Bool :=
  taxonIdx nb.1 ≤ taxonIdx t ∧ taxonIdx t ≤ taxonIdx nb.2

/-- `is_lower_node` (source lines 331-337): every rank already recorded for
the node in the ledger sits strictly below the target rank; a node without
a ledger entry passes. -/
def isLowerNode (L : Ledger) (n : Int) (t : String) : Bool :=
  match alGet? L n with
  | none => true
  | some d => d.all (fun kv => taxonIdx t < taxonIdx kv.1)

/-- The guarded ledger write of the fill loop (source lines 370-373). -/
def ledgerAddTaxon (L : Ledger) (n : Int) (t : String) (cladeName : String) : Ledger :=
  match alGet? L n with
  | some d => alSet L n (alSet d t cladeName)
  | none => alSet L n [(t, cladeName)]

/-- State threaded through the fill loop (source lines 339-383). -/
structure FillState where
  gtax : SixMap TaxVal
  fill : SixMap Bool
  speciesName : String
  nodesOut : List NodeOut
  ledger : Ledger
deriving Repr, DecidableEq

/-- One iteration of the fill loop (source lines 341-383) for one taxon:
propagate `taxon_fill` from already-set ranks, fill missing ranks with
genome-derived names, anchor in-between fills at the lowest viable parent,
and derive the species name from the genus clade name. -/
def fillStep (tree : List TreeRow) (genome : String) (parentsDedup : List Int)
    (prenamed : List String) (s : FillState) (taxon : String) : FillState :=
  let clade := s.gtax.get taxon TaxVal.empty
  match clade with
  | TaxVal.pair NodeRef.gtdbMark _ => { s with fill := SixMap.const true }
  | TaxVal.pair _ info =>
    match info with
    | TaxInfo.int _ => s
    | TaxInfo.str cn =>
      let fill1 : SixMap Bool :=
        ⟨¬ containsSub cn "p__", ¬ containsSub cn "c__", ¬ containsSub cn "o__",
         ¬ containsSub cn "f__", ¬ containsSub cn "g__", ¬ containsSub cn "s__"⟩
      let s1 := { s with fill := fill1 }
      if taxon = "genus" ∧ ¬ (cn = "") then
        { s1 with speciesName := speciesFromGenus cn genome }
      else s1
  | TaxVal.empty =>
    if s.fill.get taxon false then
      if taxon = "species" ∧ s.speciesName = "" then s
      else
        let cn := if taxon = "species" then s.speciesName
                  else strTake taxon 1 ++ "__" ++ genome
        let viable : List Int :=
          if taxon = "species" ∨ ¬ isMidTaxa prenamed taxon then []
          else parentsDedup.filter (fun p =>
            notGtdbBound (getInfo tree p) ∧ withinTaxonBounds (getInfo tree p) taxon ∧
            isLowerNode s.ledger p taxon)
        let cladeNode : Option Int := viable.getLast?
        let L := match cladeNode with
          | some n => ledgerAddTaxon s.ledger n taxon cn
          | none => s.ledger
        let ref := match cladeNode with
          | some n => NodeRef.anchor n
          | none => NodeRef.noNode
        let s2 := { s with
          gtax := s.gtax.set taxon (TaxVal.pair ref (TaxInfo.str cn)),
          nodesOut := s.nodesOut ++ [⟨cladeNode, cn, genome⟩],
          ledger := L }
        if taxon = "genus" ∧ ¬ (cn = "") then
          { s2 with speciesName := speciesFromGenus cn genome }
        else s2
    else s

/-! ### The genome loop -/

/-- State shared across genomes: the two output accumulators and the
`node_taxonomy` ledger. -/
structure LoopState where
  gOut : List (String × String)
  nodesOut : List NodeOut
  ledger : Ledger
deriving Repr, DecidableEq

/-- Everything done for one genome (source lines 205-394): the ancestor
walk, the all-empty check, the trailblazer inheritance, the fill loop, the
rendering, and the append to the genome output. -/
def genomeStep (tree : List TreeRow) (cutoffs : List ℚ) (domain : String)
    (ls : LoopState) (row : String × List Int) : LoopState :=
  let genome := row.1
  let parents := row.2
  let ws0 : WalkState :=
    ⟨SixMap.const TaxVal.empty, none, ls.nodesOut, ls.ledger, false⟩
  let ws := parents.foldl (walkStep tree cutoffs genome) ws0
  let allEmpty := ws.gtax.items.all (fun p => p.2 = TaxVal.empty)
  let fill0 : SixMap Bool := SixMap.const allEmpty
  let gtax1 := if allEmpty then ws.gtax else inheritSection ls.gOut ws.nodesOut ws.gtax
  let prenamed := (gtax1.items.filter (fun p => ¬ (p.2 = TaxVal.empty))).map (fun p => p.1)
  let fs0 : FillState := ⟨gtax1, fill0, "", ws.nodesOut, ws.ledger⟩
  let fs := taxa.foldl (fillStep tree genome (dedupFirst parents) prenamed) fs0
  let taxString := renderTaxonomy domain fs.gtax
  ⟨ls.gOut ++ [(genome, taxString)], fs.nodesOut, fs.ledger⟩

/-! ### Genome ordering and the top-level `name_clades` -/

/-- Stable insertion of `a` into a list sorted by `le`. -/
def insSorted {α : Type} (le : α → α → Bool) (a : α) : List α → List α
  | [] => [a]
  | b :: t => if le a b then a :: b :: t else b :: insSorted le a t

/-- Stable insertion sort by `le` (used for the two deterministic sorts of
the source: the quality order and the final `sort("clade")`). -/
def sortByLe {α : Type} (le : α → α → Bool) (l : List α) : List α :=
  l.foldr (insSorted le) []

/-- Order for `sort(quality, genome, descending=[True, True])`: higher
quality first, ties broken by lexicographically larger genome id first. -/
def qualityLe (a b : String × ℚ) : Bool :=
  b.2 < a.2 ∨ (a.2 = b.2 ∧ ¬ (strLt a.1 b.1 = true))

/-- Order for the final `sort("clade")` on the node-naming output. -/
def nodeOutLe (a b : NodeOut) : Bool := ¬ (strLt b.clade a.clade = true)

/-- The genome-quality join (source lines 76-94): tree rows with a non-null
magset other than `"GTDB"`, inner-joined with the metadata on the genome
id (rows without a metadata match are silently dropped), with
`quality = completeness - 5 * contamination`. -/
def genomeQualities (tree : List TreeRow) (meta : List MetaRow) :
    List (String × ℚ) :=
  (tree.filter (fun r =>
    match r.magset with
    | none => False
    | some m => ¬ (m = "GTDB"))).flatMap
    (fun r =>
      match r.genome with
      | none => []
      | some g => (meta.filter (fun m => m.name = g)).map
          (fun m => (g, ratSub m.completeness (ratMul 5 m.contamination))))

/-- The quality-ordered genome list (source lines 76-99). -/
def orderedGenomes (tree : List TreeRow) (meta : List MetaRow) : List String :=
  (sortByLe qualityLe (genomeQualities tree meta)).map (fun p => p.1)

/-- `tree_genomes` rows (source lines 111-118): for each ordered genome,
the tree rows carrying it, each yielding the genome and its leaf node. -/
def treeGenomes (tree : List TreeRow) (meta : List MetaRow) :
    List (String × Int) :=
  (orderedGenomes tree meta).flatMap
    (fun g => (tree.filter (fun r => r.genome = some g)).map (fun r => (g, r.node)))

/-- Default-cutoff resolution of `name_clades` (source lines 59-62): an
empty override list stands for Python `None`. -/
def resolveCutoffs (domain : String) (redCutoffs : List ℚ) : List ℚ :=
  if domain = "d__Bacteria" then
    (if redCutoffs = [] then bacRedCutoffs else redCutoffs)
  else
    (if redCutoffs = [] then arcRedCutoffs else redCutoffs)

/-- The loop states of one `name_clades` run after each genome row:
index `k` of the returned list is the state after the first `k` rows. -/
def runStates (tree : List TreeRow) (meta : List MetaRow) (domain : String)
    (redCutoffs : List ℚ) : List LoopState :=
  let cutoffs := resolveCutoffs domain redCutoffs
  let rows := (treeGenomes tree meta).map
    (fun p => (p.1, findParents tree tree.length p.2))
  (List.range (rows.length + 1)).map
    (fun k => (rows.take k).foldl (genomeStep tree cutoffs domain) ⟨[], [], []⟩)

/-- `name_clades` (source lines 48-399): the genome-taxonomy table in
processing order and the node-naming table sorted by clade. -/
def nameClades (tree : List TreeRow) (meta : List MetaRow) (domain : String)
    (redCutoffs : List ℚ) : List (String × String) × List NodeOut :=
  let cutoffs := resolveCutoffs domain redCutoffs
  let rows := (treeGenomes tree meta).map
    (fun p => (p.1, findParents tree tree.length p.2))
  let final := rows.foldl (genomeStep tree cutoffs domain) ⟨[], [], []⟩
  (final.gOut, sortByLe nodeOutLe final.nodesOut)

/-! ### `fill_taxonomy` -/

/-- `get_descendants` (source lines 402-408), with fuel for Python's
unbounded recursion: child-first depth-first enumeration of all nodes below
`n`. -/
def getDescendants (tree : List TreeRow) : Nat → Int → List Int
  | 0, _ => []
  | fuel + 1, n =>
    ((tree.filter (fun r => r.parent = n)).map (fun r => r.node)).flatMap
      (fun c => c :: getDescendants tree fuel c)

/-- The polars `str.extract(r"(.*);" + limit)`: with the greedy `.*`, the
captured group is everything before the *last* occurrence of `";" ++ limit`,
and the extraction is null when that separator does not occur. -/
def extractLimit (s limit : String) : Option String :=
  match lastSubstrIdx? s (";" ++ limit) with
  | some i => some (strTake s i)
  | none => none

/-- `group_by("taxonomy").count()`: distinct values (nulls included, as
polars groups them) in first-occurrence order, each with its multiplicity. -/
def countGroups (l : List (Option String)) : List (Option String × Nat) :=
  (dedupFirst l).map (fun v => (v, (l.filter (fun x => x = v)).length))

/-- `get_taxonomy` (source lines 410-426): truncate the reference
taxonomies of the node's reference leaf descendants at the limit, group,
sort by count *ascending*, and take the first group's taxonomy.  `none`
stands for the null/crash outcomes (no reference descendant, or a null
extraction winning). -/
def getTaxonomy (tree : List TreeRow) (gtdb : List (String × String))
    (node : Int) (limit : String) : Option String :=
  let descendants := getDescendants tree tree.length node
  let rows := tree.filter (fun r => descendants.contains r.node)
  let joined := rows.flatMap
    (fun r =>
      match r.genome with
      | none => []
      | some g => (gtdb.filter (fun t => t.1 = g)).map (fun t => t.2))
  let extracted := joined.map (fun t => extractLimit t limit)
  let sorted := sortByLe (fun a b => a.2 ≤ b.2) (countGroups extracted)
  match sorted.head? with
  | some vc => vc.1
  | none => none

/-- State threaded through the `fill_taxonomy` row loop: the genome output,
the per-node prefix cache (`node_taxonomy`), and the freshly minted species
rows (`new_taxonomy`). -/
structure FillTaxState where
  gOut : List (String × String)
  cache : List (Int × Option String)
  newTax : List NodeOut
deriving Repr, DecidableEq

/-- One row of the `fill_taxonomy` loop (source lines 431-457).  Rows whose
taxonomy already starts with `"d__"` pass through unchanged; otherwise the
leading node id is completed with the cached or freshly computed reference
prefix, and a species name is minted when no lower rank was named at all. -/
def fillTaxRow (tree : List TreeRow) (gtdb : List (String × String))
    (st : FillTaxState) (row : String × String) : FillTaxState :=
  let genome := row.1
  let taxonomy := row.2
  if strStarts taxonomy "d__" then
    { st with gOut := st.gOut ++ [(genome, taxonomy)] }
  else
    let node := (parseInt? ((strSplit taxonomy ";").headD "")).getD 0
    let named := String.intercalate ";" ((strSplit taxonomy ";").tail)
    let nodeLimit := strTake named 3
    let lookedUp := alGet? st.cache node
    let updated := match lookedUp with
      | some u => u
      | none => getTaxonomy tree gtdb node nodeLimit
    let cache2 := match lookedUp with
      | some _ => st.cache
      | none => alSet st.cache node updated
    let uStr := updated.getD ""
    if named = "" then
      let named2 := speciesFromGenus uStr genome
      { gOut := st.gOut ++ [(genome, uStr ++ ";" ++ named2)],
        cache := cache2,
        newTax := st.newTax ++ [⟨none, named2, genome⟩] }
    else
      { gOut := st.gOut ++ [(genome, uStr ++ ";" ++ named)],
        cache := cache2,
        newTax := st.newTax }

/-- `fill_taxonomy` (source lines 401-462): complete every bare-node-id
taxonomy and return the genome table together with the node-naming table
extended by the new species rows, re-sorted by clade. -/
def fillTaxonomy (tree : List TreeRow) (genomeTax : List (String × String))
    (nodeNames : List NodeOut) (gtdb : List (String × String)) :
    List (String × String) × List NodeOut :=
  let st := genomeTax.foldl (fillTaxRow tree gtdb) ⟨[], [], []⟩
  (st.gOut, sortByLe nodeOutLe (nodeNames ++ st.newTax))

/-- The whole pipeline as run by `main`: `name_clades` followed by
`fill_taxonomy` on its two outputs. -/
def pipeline (tree : List TreeRow) (meta : List MetaRow) (domain : String)
    (redCutoffs : List ℚ) (gtdb : List (String × String)) :
    List (String × String) × List NodeOut :=
  let r := nameClades tree meta domain redCutoffs
  fillTaxonomy tree r.1 r.2 gtdb

/-! ### Concrete inputs used by counterexamples and witnesses -/

/-- The `Species/Strain` novelty label used in the repository's tests. -/
def nvSpecies : String := "Species/Strain (0.95-1]"

/-- The `Genus` novelty label. -/
def nvGenus : String := "Genus (0.82-0.95]"

/-- The `Order` novelty label. -/
def nvOrder : String := "Order (0.43-0.62]"

/-- The `Phylum` novelty label. -/
def nvPhylum : String := "Phylum (0-0.28]"

/-- The tree of the suite's first end-to-end scenario (`test_name_clades`):
two genomes under a shared genus node, a third under the order node. -/
def cTree1 : List TreeRow :=
  [⟨10, 1, some "nongtdb", some "SPIREOTU_01842612", some "other", none, none⟩,
   ⟨10, 2, some "nongtdb", some "BCRBG_01105", some "other", none, none⟩,
   ⟨1000, 3, some "nongtdb", some "BCRBG_48201", some "other", none, none⟩,
   ⟨1000, 10, some "nongtdb", none, none, some 1, some nvSpecies⟩,
   ⟨100000, 1000, some "nongtdb", none, none, some (Rat.divInt 92 100), some nvGenus⟩,
   ⟨0, 100000, some "nongtdb", none, none, some (Rat.divInt 6 10), some nvOrder⟩,
   ⟨0, 0, some "nongtdb", none, none, some (Rat.divInt 3 10), some nvPhylum⟩]

/-- Metadata of the first end-to-end scenario. -/
def cMeta1 : List MetaRow :=
  [⟨"SPIREOTU_01842612", 90, 0⟩, ⟨"BCRBG_01105", 90, 1⟩, ⟨"BCRBG_48201", 90, 5⟩]

/-- Custom rank-median cutoffs (phylum to genus) made of dyadic rationals:
every value is exactly representable as an IEEE-754 double
(`0.25, 0.375, 0.625, 0.75, 0.875`), so the Python program's float
arithmetic on them is exact and agrees with this rational model. -/
def cCutTie : List ℚ :=
  [Rat.divInt 1 4, Rat.divInt 3 8, Rat.divInt 5 8, Rat.divInt 3 4, Rat.divInt 7 8]

/-- A chain of two genus-novelty nodes whose REDs `15/16 = 0.9375` and
`13/16 = 0.8125` sit at exactly the same distance (`1/16 = 0.0625`) from
the genus median `7/8 = 0.875`.  All three values and both differences are
dyadic with small exponents, hence exactly representable IEEE-754 doubles
with exact subtraction, so the program's `abs(child_red - median_red) <
abs(parent_red - median_red)` compares `0.0625 < 0.0625` and ties exactly
in floating point just as it does here in `ℚ`. -/
def cTreeTie : List TreeRow :=
  [⟨10, 1, some "nongtdb", some "QT", some "mag", none, none⟩,
   ⟨100, 10, some "nongtdb", none, none, some 1, some nvGenus⟩,
   ⟨0, 100, some "nongtdb", none, none, some (Rat.divInt 15 16), some nvGenus⟩,
   ⟨0, 0, some "nongtdb", none, none, some (Rat.divInt 13 16), some nvGenus⟩]

/-- Walk state with the lower tie node pending as the genus candidate. -/
def sTie : WalkState :=
  ⟨SixMap.const TaxVal.empty, some (10, ["genus"]), [], [], false⟩

/-- A node (50) whose three reference leaf descendants carry two distinct
truncated taxonomies: the `F1;g__G1` prefix twice and the `F2;g__G2` prefix
once. -/
def cTreeRef : List TreeRow :=
  [⟨50, 51, some "gtdb", some "R1", none, none, none⟩,
   ⟨50, 52, some "gtdb", some "R2", none, none, none⟩,
   ⟨50, 53, some "gtdb", some "R3", none, none, none⟩,
   ⟨0, 50, some "gtdb", none, none, some (Rat.divInt 9 10), none⟩,
   ⟨0, 0, some "gtdb", none, none, some (Rat.divInt 3 10), none⟩]

/-- Reference taxonomies for `cTreeRef`: R1 and R2 share their prefix up to
genus, R3 differs from family down. -/
def cGtdbRef : List (String × String) :=
  [("R1", "d__B;p__P1;c__C1;o__O1;f__F1;g__G1;s__G1 sp1"),
   ("R2", "d__B;p__P1;c__C1;o__O1;f__F1;g__G1;s__G1 sp2"),
   ("R3", "d__B;p__P1;c__C1;o__O1;f__F2;g__G2;s__G2 sp3")]

/-- A tree with two query leaves, only one of which (`QA`) has metadata. -/
def cTreeMiss : List TreeRow :=
  [⟨10, 1, some "nongtdb", some "QA", some "mag", none, none⟩,
   ⟨10, 2, some "nongtdb", some "QB", some "mag", none, none⟩,
   ⟨0, 10, some "nongtdb", none, none, some 1, some nvSpecies⟩,
   ⟨0, 0, some "nongtdb", none, none, some (Rat.divInt 3 10), some nvPhylum⟩]

/-- Metadata lacking the query genome `QB`. -/
def cMetaMiss : List MetaRow := [⟨"QA", 90, 0⟩]

/-- A query leaf whose walk names a genus at node 10 and then terminates at
the reference-containing node 100. -/
def cTreeGt : List TreeRow :=
  [⟨100, 5, some "gtdb", some "GTDBG1", none, none, none⟩,
   ⟨10, 1, some "nongtdb", some "QG", some "mag", none, none⟩,
   ⟨100, 10, some "nongtdb", none, none, some 1, some nvSpecies⟩,
   ⟨0, 100, some "gtdb", none, none, some (Rat.divInt 93 100), some nvGenus⟩,
   ⟨0, 0, some "gtdb", none, none, some (Rat.divInt 3 10), some nvPhylum⟩]

/-- Metadata for `cTreeGt`. -/
def cMetaGt : List MetaRow := [⟨"QG", 90, 0⟩]

/-- A single query leaf. -/
def cTreeDup : List TreeRow :=
  [⟨10, 1, some "nongtdb", some "DG", some "mag", none, none⟩,
   ⟨100, 10, some "nongtdb", none, none, some 1, some nvSpecies⟩,
   ⟨0, 100, some "nongtdb", none, none, some (Rat.divInt 9 10), some nvGenus⟩,
   ⟨0, 0, some "nongtdb", none, none, some (Rat.divInt 3 10), some nvPhylum⟩]

/-- A metadata table listing the genome `DG` twice, which makes the loop
process it twice. -/
def cMetaDup : List MetaRow := [⟨"DG", 90, 0⟩, ⟨"DG", 90, 0⟩]

/-- A two-row tree with a self-parent root, for the ancestor-chain witness. -/
def cTreeRoot : List TreeRow :=
  [⟨5, 7, some "nongtdb", none, none, some 1, none⟩,
   ⟨5, 5, some "nongtdb", none, none, some (Rat.divInt 1 2), none⟩]

/-! ### Specification predicates -/

/-- `ChainsTo pd n l`: following `pd` from `n` runs through exactly the
nodes of `l` and ends at a self-parent root (the last element of `l`, or
`n` itself when `l` is empty). -/
inductive ChainsTo (pd : Int → Option Int) : Int → List Int → Prop where
  | selfRoot (n : Int) (h : pd n = some n) : ChainsTo pd n []
  | step (n p : Int) (l : List Int) (h : pd n = some p) (hne : ¬ n = p)
      (ht : ChainsTo pd p l) : ChainsTo pd n (p :: l)

/-- One ledger extends another pointwise: every `(node, rank)` cell present
in the first is present, with the same clade name, in the second. -/
def ledgerLeq (L L' : Ledger) : Prop :=
  ∀ n r v, lGet L n r = some v → lGet L' n r = some v

/-- The walk invariant: a pending child candidate always points at a node
that has no ledger entry yet. -/
def childInv (s : WalkState) : Prop :=
  ∀ c rs, s.child = some (c, rs) → alGet? s.ledger c = none

/-- The shape every clade name in the node-naming output takes: a
rank-letter mint `<letter>__<rep>` or a species label
`s<genus-local> <rep>`, both embedding the representative genome id. -/
def cladeShapeOK (r : NodeOut) : Prop :=
  (∃ c : String, r.clade = c ++ "__" ++ r.genomeRep ∧ c.length ≤ 1) ∨
  (∃ x : String, r.clade = "s" ++ x ++ " " ++ r.genomeRep)

/-! ## Bridge lemmas: the kernel-computable arithmetic matches the
standard operations -/

theorem ratSub_eq (a b : ℚ) : ratSub a b = a - b := by
  have ha : ((a.den : ℚ)) ≠ 0 := by exact_mod_cast a.den_nz
  have hb : ((b.den : ℚ)) ≠ 0 := by exact_mod_cast b.den_nz
  have h1 : (a.num : ℚ) = a * (a.den : ℚ) := (div_eq_iff ha).mp (Rat.num_div_den a)
  have h2 : (b.num : ℚ) = b * (b.den : ℚ) := (div_eq_iff hb).mp (Rat.num_div_den b)
  rw [ratSub, Rat.divInt_eq_div]
  push_cast
  rw [h1, h2, div_eq_iff (mul_ne_zero ha hb)]
  ring

theorem ratMul_eq (a b : ℚ) : ratMul a b = a * b := by
  have ha : ((a.den : ℚ)) ≠ 0 := by exact_mod_cast a.den_nz
  have hb : ((b.den : ℚ)) ≠ 0 := by exact_mod_cast b.den_nz
  have h1 : (a.num : ℚ) = a * (a.den : ℚ) := (div_eq_iff ha).mp (Rat.num_div_den a)
  have h2 : (b.num : ℚ) = b * (b.den : ℚ) := (div_eq_iff hb).mp (Rat.num_div_den b)
  rw [ratMul, Rat.divInt_eq_div]
  push_cast
  rw [h1, h2, div_eq_iff (mul_ne_zero ha hb)]
  ring

theorem ratAbs_eq (q : ℚ) : ratAbs q = |q| := by
  rw [ratAbs]
  by_cases h : q < 0
  · rw [if_pos h, abs_of_neg h, Rat.divInt_eq_div]
    push_cast
    rw [neg_div, Rat.num_div_den]
  · rw [if_neg h, abs_of_nonneg (le_of_not_lt h)]

theorem childRedCloser_eq (c p m : ℚ) :
    childRedCloser c p m = true ↔ |c - m| < |p - m| := by
  rw [childRedCloser, ratAbs_eq, ratAbs_eq, ratSub_eq, ratSub_eq, decide_eq_true_eq]

/-! ## General helper lemmas -/

theorem alGet?_alSet {α β : Type} [DecidableEq α] (L : List (α × β)) (k k' : α) (v : β) :
    alGet? (alSet L k v) k' = if k = k' then some v else alGet? L k' := by
  induction L with
  | nil => simp [alSet, alGet?]
  | cons h t ih =>
    obtain ⟨k0, v0⟩ := h
    by_cases h0 : k0 = k
    · subst h0
      simp only [alSet, if_pos rfl, alGet?]
      by_cases h1 : k0 = k'
      · subst h1
        simp
      · simp [h1]
    · simp only [alSet, if_neg h0, alGet?]
      by_cases h1 : k0 = k'
      · subst h1
        have : ¬ k = k0 := fun h => h0 h.symm
        simp [this]
      · simp [h1, ih]

theorem alGet?_some_mem {α β : Type} [DecidableEq α] {L : List (α × β)} {k : α} {v : β}
    (h : alGet? L k = some v) : (k, v) ∈ L := by
  induction L with
  | nil => simp [alGet?] at h
  | cons hd t ih =>
    obtain ⟨k0, v0⟩ := hd
    simp only [alGet?] at h
    by_cases h0 : k0 = k
    · subst h0
      rw [if_pos rfl] at h
      injection h with h
      subst h
      exact List.mem_cons_self _ _
    · rw [if_neg h0] at h
      exact List.mem_cons_of_mem _ (ih h)

theorem mem_insSorted {α : Type} (le : α → α → Bool) (a x : α) (l : List α) :
    x ∈ insSorted le a l ↔ x = a ∨ x ∈ l := by
  induction l with
  | nil => simp [insSorted]
  | cons b t ih =>
    simp only [insSorted]
    by_cases h : le a b = true
    · simp [h]
    · simp only [h]
      simp only [Bool.false_eq_true, if_false, List.mem_cons, ih]
      tauto

theorem mem_sortByLe {α : Type} (le : α → α → Bool) (x : α) (l : List α) :
    x ∈ sortByLe le l ↔ x ∈ l := by
  induction l with
  | nil => simp [sortByLe]
  | cons b t ih =>
    simp only [sortByLe, List.foldr] at ih ⊢
    rw [mem_insSorted, ih, List.mem_cons]

/-! ## C9: ancestor-chain termination -/

theorem chainsTo_findParents {tree : List TreeRow} {n : Int} {l : List Int}
    (h : ChainsTo (parentLookup tree) n l) :
    ∀ fuel : Nat, l.length < fuel → findParents tree fuel n = l := by
  induction h with
  | selfRoot n h =>
    intro fuel hf
    cases fuel with
    | zero => omega
    | succ f => simp [findParents, h]
  | step n p l h hne ht ih =>
    intro fuel hf
    cases fuel with
    | zero => simp at hf
    | succ f =>
      simp only [findParents, h]
      rw [if_neg hne]
      have : l.length < f := by
        simp only [List.length_cons] at hf
        omega
      rw [ih f this]

theorem chainsTo_getLast {pd : Int → Option Int} {n : Int} {l : List Int}
    (h : ChainsTo pd n l) : ∀ r, l.getLast? = some r → pd r = some r := by
  induction h with
  | selfRoot n h => intro r hr; simp at hr
  | step n p l h hne ht ih =>
    intro r hr
    cases l with
    | nil =>
      simp at hr
      subst hr
      cases ht with
      | selfRoot _ h0 => exact h0
    | cons q t =>
      rw [List.getLast?_cons_cons] at hr
      exact ih r hr

/-- C9: for every node whose parent chain reaches a self-parent root, the
ancestor-chain computation `find_parents` terminates: with any fuel beyond
the chain length it returns the same finite chain, running from the
immediate parent up to and including that root (the chain's last element is
a self-parent node). -/
theorem c9_findParents_terminates (tree : List TreeRow) (n : Int) (l : List Int)
    (h : ChainsTo (parentLookup tree) n l) :
    (∀ fuel : Nat, l.length < fuel → findParents tree fuel n = l) ∧
    (∀ r, l.getLast? = some r → parentLookup tree r = some r) :=
  ⟨chainsTo_findParents h, chainsTo_getLast h⟩

/-- Witness for C9 on the concrete two-row tree `cTreeRoot`: node 7's chain
is `[5]`, node 5 being the self-parent root, and `find_parents` computes it
with any sufficient fuel. -/
theorem c9_witness :
    findParents cTreeRoot 2 7 = [5] ∧ parentLookup cTreeRoot 5 = some 5 := by
  have hc : ChainsTo (parentLookup cTreeRoot) 7 [5] :=
    ChainsTo.step 7 5 [] (by decide) (by decide) (ChainsTo.selfRoot 5 (by decide))
  have h := c9_findParents_terminates cTreeRoot 7 [5] hc
  exact ⟨h.1 2 (by decide), h.2 5 (by decide)⟩

/-! ## C8: determinism -/

/-- C8: the pipeline `name_clades` followed by `fill_taxonomy` is
deterministic: two runs over equal tree tables, metadata, domains, cutoff
lists and reference-taxonomy tables produce equal genome-taxonomy and
node-naming tables.  In this embedding the whole pipeline is a pure
function of those five inputs, so determinism is equality under equal
arguments. -/
theorem c8_pipeline_deterministic (t₁ t₂ : List TreeRow) (m₁ m₂ : List MetaRow)
    (d₁ d₂ : String) (rc₁ rc₂ : List ℚ) (g₁ g₂ : List (String × String))
    (ht : t₁ = t₂) (hm : m₁ = m₂) (hd : d₁ = d₂) (hrc : rc₁ = rc₂) (hg : g₁ = g₂) :
    pipeline t₁ m₁ d₁ rc₁ g₁ = pipeline t₂ m₂ d₂ rc₂ g₂ := by
  subst ht hm hd hrc hg
  rfl

/-- Witness for C8 at a concrete input. -/
theorem c8_witness :
    pipeline cTreeGt cMetaGt "d__Bacteria" [] cGtdbRef =
    pipeline cTreeGt cMetaGt "d__Bacteria" [] cGtdbRef :=
  c8_pipeline_deterministic cTreeGt cTreeGt cMetaGt cMetaGt "d__Bacteria" "d__Bacteria"
    [] [] cGtdbRef cGtdbRef rfl rfl rfl rfl rfl

/-! ## C3: RED-distance tie-break direction -/

/-- C3 counterexample: on `cTreeTie` the pending genus candidate at node 10
(RED `15/16`) and the ancestor node 100 (RED `13/16`) sit at exactly the
same distance `1/16` from the genus median `7/8` — a tie that is exact for
the program's IEEE-754 doubles too, since all the values and differences
are dyadic (`|0.9375 - 0.875| = 0.0625 = |0.8125 - 0.875|` with no
rounding) — yet `child_red_closer` answers false and the walk step abandons
node 10 (no ledger entry, no naming) and adopts the root-ward node 100 as
the new candidate — the opposite of the claimed leaf-ward preference. -/
theorem c3_counterexample :
    |getNodeRed cTreeTie 10 - medianRed cCutTie "genus"| =
      |getNodeRed cTreeTie 100 - medianRed cCutTie "genus"| ∧
    childRedCloser (getNodeRed cTreeTie 10) (getNodeRed cTreeTie 100)
      (medianRed cCutTie "genus") = false ∧
    (walkStep cTreeTie cCutTie "QT" sTie 100).child = some (100, ["genus"]) ∧
    (walkStep cTreeTie cCutTie "QT" sTie 100).ledger = [] ∧
    (walkStep cTreeTie cCutTie "QT" sTie 100).gtax = SixMap.const TaxVal.empty := by
  refine ⟨?_, by decide, by decide, by decide, by decide⟩
  rw [show getNodeRed cTreeTie 10 - medianRed cCutTie "genus" =
      ratSub (getNodeRed cTreeTie 10) (medianRed cCutTie "genus") from
      (ratSub_eq _ _).symm,
    show getNodeRed cTreeTie 100 - medianRed cCutTie "genus" =
      ratSub (getNodeRed cTreeTie 100) (medianRed cCutTie "genus") from
      (ratSub_eq _ _).symm,
    ← ratAbs_eq, ← ratAbs_eq]
  decide

/-- C3 amended: in every RED-distance comparison the engine selects the
node strictly minimizing the distance to the canonical median, but when the
two distances are exactly equal `child_red_closer` answers false, so the
engine favors the node closer to the root: a single-rank pending candidate
whose distance merely ties the ancestor's is dropped without being named
(no ledger write, no taxonomy write) and the candidate slot is cleared. -/
theorem c3_amended (c p m : ℚ) :
    (childRedCloser c p m = true ↔ |c - m| < |p - m|) ∧
    (|c - m| = |p - m| → childRedCloser c p m = false) ∧
    (∀ (tree : List TreeRow) (cuts : List ℚ) (genome : String) (parent : Int)
       (nreds : List String) (nb : String × String) (skip0 : Bool)
       (s : WalkState) (c0 : Int) (r : String),
      s.child = some (c0, [r]) →
      nreds.headD "" = r →
      childRedCloser (getNodeRed tree c0) (getNodeRed tree parent)
        (medianRed cuts r) = false →
      (pendingPhase tree cuts genome parent nreds nb skip0 s).1.ledger = s.ledger ∧
      (pendingPhase tree cuts genome parent nreds nb skip0 s).1.gtax = s.gtax ∧
      (pendingPhase tree cuts genome parent nreds nb skip0 s).1.child = none) := by
  refine ⟨childRedCloser_eq c p m, ?_, ?_⟩
  · intro h
    rw [← Bool.not_eq_true]
    intro hc
    exact absurd ((childRedCloser_eq c p m).mp hc) (by rw [h]; exact lt_irrefl _)
  · intro tree cuts genome parent nreds nb skip0 s c0 r hchild hr hfar
    simp only [pendingPhase, hchild]
    have hcr : ([r].headD "") = r := rfl
    rw [hcr, hr]
    simp only [if_pos (Or.inl rfl), hfar]
    simp

/-- Witness for C3 amended at concrete values: distances 1 and 1 from
median 2 tie, the comparison answers false, and a concrete tied pending
candidate is dropped unchanged. -/
theorem c3_witness :
    childRedCloser 1 3 2 = false ∧
    (pendingPhase cTreeTie cCutTie "QT" 100 ["genus"] ("genus", "genus") false
      sTie).1.child = none := by
  have h := c3_amended 1 3 2
  refine ⟨h.2.1 (by norm_num), ?_⟩
  exact (h.2.2 cTreeTie cCutTie "QT" 100 ["genus"] ("genus", "genus") false sTie 10
    "genus" rfl rfl (by decide)).2.2

/-! ## C1: majority vote in the reference completion pass -/

/-- C1: on `cTreeRef` the truncated reference taxonomies of node 50's
reference leaf descendants are the `F1;g__G1` prefix (twice, the majority)
and the `F2;g__G2` prefix (once), yet `get_taxonomy` returns the
least-frequent prefix: it sorts the counts in ascending order and takes the
first row. -/
theorem c1_minority_prefix :
    getTaxonomy cTreeRef cGtdbRef 50 "" = some "d__B;p__P1;c__C1;o__O1;f__F2;g__G2" ∧
    extractLimit "d__B;p__P1;c__C1;o__O1;f__F1;g__G1;s__G1 sp1" "" =
      some "d__B;p__P1;c__C1;o__O1;f__F1;g__G1" ∧
    extractLimit "d__B;p__P1;c__C1;o__O1;f__F1;g__G1;s__G1 sp2" "" =
      some "d__B;p__P1;c__C1;o__O1;f__F1;g__G1" ∧
    extractLimit "d__B;p__P1;c__C1;o__O1;f__F2;g__G2;s__G2 sp3" "" =
      some "d__B;p__P1;c__C1;o__O1;f__F2;g__G2" ∧
    countGroups
      [some "d__B;p__P1;c__C1;o__O1;f__F1;g__G1",
       some "d__B;p__P1;c__C1;o__O1;f__F1;g__G1",
       some "d__B;p__P1;c__C1;o__O1;f__F2;g__G2"] =
      [(some "d__B;p__P1;c__C1;o__O1;f__F1;g__G1", 2),
       (some "d__B;p__P1;c__C1;o__O1;f__F2;g__G2", 1)] ∧
    ¬ ((some "d__B;p__P1;c__C1;o__O1;f__F2;g__G2" : Option String) =
       some "d__B;p__P1;c__C1;o__O1;f__F1;g__G1") := by
  decide

/-! ## C2: species labels under genus inheritance -/

/-- C2 counterexample: in the suite's first scenario, `BCRBG_01105` inherits
the genus `g__SPIREOTU_01842612` claimed by the founder
`SPIREOTU_01842612`, yet the species label it receives embeds its own id
and differs, character for character, from the founder's species label. -/
theorem c2_counterexample :
    (nameClades cTree1 cMeta1 "d__Bacteria" []).1 =
      [("SPIREOTU_01842612",
        "d__Bacteria;p__SPIREOTU_01842612;c__SPIREOTU_01842612;o__SPIREOTU_01842612;f__SPIREOTU_01842612;g__SPIREOTU_01842612;s__SPIREOTU_01842612 SPIREOTU_01842612"),
       ("BCRBG_01105",
        "d__Bacteria;p__SPIREOTU_01842612;c__SPIREOTU_01842612;o__SPIREOTU_01842612;f__SPIREOTU_01842612;g__SPIREOTU_01842612;s__SPIREOTU_01842612 BCRBG_01105"),
       ("BCRBG_48201",
        "d__Bacteria;p__SPIREOTU_01842612;c__SPIREOTU_01842612;o__SPIREOTU_01842612;f__SPIREOTU_01842612;g__BCRBG_48201;s__BCRBG_48201 BCRBG_48201")] ∧
    ¬ (("s__SPIREOTU_01842612 BCRBG_01105" : String) =
       "s__SPIREOTU_01842612 SPIREOTU_01842612") := by
  constructor
  · decide
  · decide

/-- C2 amended: the species label a genome receives from a genus clade name
is `"s"` + the genus-local name (which embeds the genus founder's id) + a
space + the *current* genome's own id; genomes inheriting the same genus
therefore share the genus-local part but receive pairwise distinct species
labels. -/
theorem c2_species_label_genome_scoped (c g₁ g₂ : String) (hne : ¬ (g₁ = g₂)) :
    speciesFromGenus c g₁ =
      "s" ++ strDrop c ((substrIdx? c "g__").getD 0 + 1) ++ " " ++ g₁ ∧
    ¬ (speciesFromGenus c g₁ = speciesFromGenus c g₂) := by
  refine ⟨rfl, fun h => hne ?_⟩
  have hd := congrArg String.data h
  simp only [speciesFromGenus, String.data_append] at hd
  have := List.append_cancel_left hd
  exact String.ext this

/-- Witness for C2 amended at concrete values. -/
theorem c2_witness :
    ¬ (("A" : String) = "B") ∧
    ¬ (speciesFromGenus "g__X" "A" = speciesFromGenus "g__X" "B") :=
  ⟨by decide, (c2_species_label_genome_scoped "g__X" "A" "B" (by decide)).2⟩

/-! ## C6: rendering after reference termination -/

/-- C6 counterexample: on `cTreeGt` the single genome's walk terminates at
the reference-containing node 100 (its family slot holds the
`("GTDB", 100)` marker), yet the rendered taxonomy is
`"100;g__QG;s__QG QG"` — the node id followed by the genus and species
named below the termination point — not the bare `"100"`. -/
theorem c6_counterexample :
    ((findParents cTreeGt cTreeGt.length 1).foldl
      (walkStep cTreeGt bacRedCutoffs "QG")
      ⟨SixMap.const TaxVal.empty, none, [], [], false⟩).gtax.fam =
      TaxVal.pair NodeRef.gtdbMark (TaxInfo.int 100) ∧
    (nameClades cTreeGt cMetaGt "d__Bacteria" []).1 = [("QG", "100;g__QG;s__QG QG")] ∧
    ¬ (("100;g__QG;s__QG QG" : String) = "100") := by
  refine ⟨by decide, by decide, by decide⟩

/-- C6 amended: when a rank holds the `("GTDB", node)` marker, the renderer
*resets* the accumulator to the decimal node id — discarding the domain and
all higher ranks — and any lower ranks already named are still appended
after it; the result equals the bare node id only when nothing was named
below the termination rank. -/
theorem c6_render_resets_then_appends (dom : String) (n : Int) (r₁ r₂ : NodeRef)
    (g s : String) :
    renderTaxonomy dom
      ⟨TaxVal.empty, TaxVal.empty, TaxVal.empty,
       TaxVal.pair NodeRef.gtdbMark (TaxInfo.int n),
       TaxVal.pair r₁ (TaxInfo.str g), TaxVal.pair r₂ (TaxInfo.str s)⟩ =
      toString n ++ ";" ++ g ++ ";" ++ s ∧
    ¬ (toString n ++ ";" ++ g ++ ";" ++ s = toString n) := by
  constructor
  · rfl
  · intro h
    have hl := congrArg String.length h
    simp only [String.length_append] at hl
    have h1 : (";" : String).length = 1 := rfl
    rw [h1] at hl
    omega

/-! ## C5: query genome missing from metadata -/

theorem gOut_names (tree : List TreeRow) (cuts : List ℚ) (dom : String) :
    ∀ (rows : List (String × List Int)) (s : LoopState),
      ((rows.foldl (genomeStep tree cuts dom) s).gOut).map Prod.fst =
        s.gOut.map Prod.fst ++ rows.map Prod.fst := by
  intro rows
  induction rows with
  | nil => intro s; simp
  | cons r t ih =>
    intro s
    simp only [List.foldl_cons, List.map_cons]
    rw [ih]
    have hg : (genomeStep tree cuts dom s r).gOut.map Prod.fst =
        s.gOut.map Prod.fst ++ [r.1] := by
      simp [genomeStep]
    rw [hg, List.append_assoc]
    rfl

theorem mem_orderedGenomes_meta {tree : List TreeRow} {meta : List MetaRow} {g : String}
    (h : g ∈ orderedGenomes tree meta) : ∃ m ∈ meta, m.name = g := by
  rw [orderedGenomes] at h
  obtain ⟨q, hq, hq1⟩ := List.mem_map.mp h
  rw [mem_sortByLe] at hq
  rw [genomeQualities] at hq
  obtain ⟨r, _, hr2⟩ := List.mem_flatMap.mp hq
  cases hg : r.genome with
  | none => rw [hg] at hr2; simp at hr2
  | some g' =>
    rw [hg] at hr2
    obtain ⟨m, hm, hm2⟩ := List.mem_map.mp hr2
    have hm' := List.mem_filter.mp hm
    refine ⟨m, hm'.1, ?_⟩
    have : q.1 = g' := by rw [← hm2]
    have hname : m.name = g' := by
      have := hm'.2
      simpa using this
    rw [hname, ← this, hq1]

/-- C5 amended (general form): a genome absent from the metadata table never
appears in the genome-taxonomy output of `name_clades` — the inner join
silently drops it. -/
theorem c5_missing_metadata_dropped (tree : List TreeRow) (meta : List MetaRow)
    (domain : String) (rc : List ℚ) (g : String)
    (h : ∀ m ∈ meta, ¬ (m.name = g)) :
    ¬ (g ∈ (nameClades tree meta domain rc).1.map Prod.fst) := by
  intro hmem
  have h1 : (nameClades tree meta domain rc).1 =
      (((treeGenomes tree meta).map
        (fun p => (p.1, findParents tree tree.length p.2))).foldl
        (genomeStep tree (resolveCutoffs domain rc) domain) ⟨[], [], []⟩).gOut := rfl
  rw [h1, gOut_names] at hmem
  simp only [List.nil_append, List.map_map] at hmem
  rw [List.map_nil, List.nil_append] at hmem
  obtain ⟨p, hp, hp1⟩ := List.mem_map.mp hmem
  have hp1' : p.1 = g := hp1
  rw [treeGenomes] at hp
  obtain ⟨g', hg', hmem2⟩ := List.mem_flatMap.mp hp
  obtain ⟨r, _, hr⟩ := List.mem_map.mp hmem2
  have : g' = g := by rw [← hp1', ← hr]
  subst this
  obtain ⟨m, hm, hname⟩ := mem_orderedGenomes_meta hg'
  exact h m hm hname

/-- C5 counterexample: on `cTreeMiss` the query genome `QB` has no metadata
row; `name_clades` neither fails nor reports it — it produces output for
`QA` alone, with `QB` silently absent from the quality order and from the
genome table. -/
theorem c5_counterexample :
    orderedGenomes cTreeMiss cMetaMiss = ["QA"] ∧
    (nameClades cTreeMiss cMetaMiss "d__Bacteria" []).1.map Prod.fst = ["QA"] ∧
    ¬ ((nameClades cTreeMiss cMetaMiss "d__Bacteria" []).2 = []) := by
  refine ⟨by decide, by decide, by decide⟩

/-- Witness for C5 amended: `QB` is indeed dropped on the concrete input. -/
theorem c5_witness :
    ¬ (("QB" : String) ∈ (nameClades cTreeMiss cMetaMiss "d__Bacteria" []).1.map Prod.fst) :=
  c5_missing_metadata_dropped cTreeMiss cMetaMiss "d__Bacteria" [] "QB" (by decide)

/-! ## C4: the ledger is write-once -/

theorem ledgerLeq_refl (L : Ledger) : ledgerLeq L L := fun _ _ _ h => h

theorem ledgerLeq_trans {L₁ L₂ L₃ : Ledger} (h₁ : ledgerLeq L₁ L₂)
    (h₂ : ledgerLeq L₂ L₃) : ledgerLeq L₁ L₃ :=
  fun n r v h => h₂ n r v (h₁ n r v h)

theorem lGet_eq (L : Ledger) (n : Int) (r : String) :
    lGet L n r = (alGet? L n).bind (fun d => alGet? d r) := by
  rw [lGet]
  cases alGet? L n <;> rfl

theorem alSet_fresh_ledgerLeq (L : Ledger) (k : Int) (d : List (String × String))
    (hk : alGet? L k = none) : ledgerLeq L (alSet L k d) := by
  intro n r v hv
  rw [lGet_eq] at hv ⊢
  rw [alGet?_alSet]
  have hne : ¬ k = n := by
    intro he
    subst he
    rw [hk] at hv
    simp at hv
  rw [if_neg hne]
  exact hv

theorem ledgerAddTaxon_leq (L : Ledger) (n : Int) (t cn : String)
    (h : isLowerNode L n t = true) : ledgerLeq L (ledgerAddTaxon L n t cn) := by
  intro n' r v hv
  rw [lGet_eq] at hv ⊢
  rw [ledgerAddTaxon]
  cases hn : alGet? L n with
  | none =>
    show (alGet? (alSet L n [(t, cn)]) n').bind (fun d => alGet? d r) = some v
    rw [alGet?_alSet]
    have hne : ¬ n = n' := by
      intro he
      subst he
      rw [hn] at hv
      simp at hv
    rw [if_neg hne]
    exact hv
  | some d =>
    show (alGet? (alSet L n (alSet d t cn)) n').bind (fun d => alGet? d r) = some v
    rw [alGet?_alSet]
    by_cases hne : n = n'
    · subst hne
      rw [hn, Option.some_bind] at hv
      rw [if_pos rfl, Option.some_bind]
      rw [alGet?_alSet]
      have htr : ¬ t = r := by
        intro he
        subst he
        have hmem := alGet?_some_mem hv
        rw [isLowerNode, hn] at h
        have := (List.all_eq_true.mp h) (t, v) hmem
        simp only [decide_eq_true_eq] at this
        exact absurd this (lt_irrefl _)
      rw [if_neg htr]
      exact hv
    · rw [if_neg hne]
      exact hv

theorem pendingPhase_inv (tree : List TreeRow) (cuts : List ℚ) (genome : String)
    (parent : Int) (nreds : List String) (nb : String × String) (skip0 : Bool)
    (s : WalkState) (hInv : childInv s) :
    ledgerLeq s.ledger (pendingPhase tree cuts genome parent nreds nb skip0 s).1.ledger ∧
    childInv (pendingPhase tree cuts genome parent nreds nb skip0 s).1 := by
  obtain ⟨gtax, child, nodesOut, ledger, stopped⟩ := s
  cases child with
  | none => exact ⟨ledgerLeq_refl _, hInv⟩
  | some cc =>
    obtain ⟨c0, cranks⟩ := cc
    have hc0 : alGet? ledger c0 = none := hInv c0 cranks rfl
    simp only [pendingPhase]
    split
    · exact ⟨ledgerLeq_refl _, fun c rs hcrs => by simp at hcrs⟩
    · constructor
      · split
        · exact ledgerLeq_refl _
        · exact alSet_fresh_ledgerLeq _ _ _ hc0
      · intro c rs hcrs
        simp at hcrs

theorem consultPhase_cases (tree : List TreeRow) (cuts : List ℚ) (parent : Int)
    (nreds : List String) (nb : String × String) (s : WalkState) :
    (consultPhase tree cuts parent nreds nb s).ledger = s.ledger ∧
    ((consultPhase tree cuts parent nreds nb s).child = s.child ∨
     ((consultPhase tree cuts parent nreds nb s).child = some (parent, nreds) ∧
      alGet? s.ledger parent = none)) := by
  simp only [consultPhase]
  cases h : alGet? s.ledger parent with
  | some d => exact ⟨rfl, Or.inl rfl⟩
  | none =>
    split
    · rename_i d heq
      exact Option.noConfusion heq
    · by_cases h0 : nreds.headD "" = ""
      · rw [if_pos h0]
        split <;> split <;> exact ⟨rfl, Or.inl rfl⟩
      · rw [if_neg h0]
        exact ⟨rfl, Or.inr ⟨rfl, rfl⟩⟩

theorem consultPhase_inv (tree : List TreeRow) (cuts : List ℚ) (parent : Int)
    (nreds : List String) (nb : String × String) (s : WalkState)
    (hInv : childInv s) : childInv (consultPhase tree cuts parent nreds nb s) := by
  obtain ⟨hL, hC⟩ := consultPhase_cases tree cuts parent nreds nb s
  intro c rs hc
  rw [hL]
  cases hC with
  | inl h =>
    rw [h] at hc
    exact hInv c rs hc
  | inr h =>
    rw [h.1] at hc
    injection hc with hc2
    have hcp : parent = c := congrArg Prod.fst hc2
    subst hcp
    exact h.2

theorem walkBody_inv (tree : List TreeRow) (cuts : List ℚ) (genome : String)
    (parent : Int) (nreds : List String) (nb : String × String) (skip0 : Bool)
    (s : WalkState) (hInv : childInv s) :
    ledgerLeq s.ledger (walkBody tree cuts genome parent nreds nb skip0 s).ledger ∧
    childInv (walkBody tree cuts genome parent nreds nb skip0 s) := by
  obtain ⟨hL, hI⟩ := pendingPhase_inv tree cuts genome parent nreds nb skip0 s hInv
  rw [walkBody]
  split
  · exact ⟨hL, hI⟩
  · obtain ⟨hL2, _⟩ := consultPhase_cases tree cuts parent nreds nb
      (pendingPhase tree cuts genome parent nreds nb skip0 s).1
    rw [hL2]
    exact ⟨hL, consultPhase_inv tree cuts parent nreds nb _ hI⟩

theorem walkStep_inv (tree : List TreeRow) (cuts : List ℚ) (genome : String)
    (s : WalkState) (parent : Int) (hInv : childInv s) :
    ledgerLeq s.ledger (walkStep tree cuts genome s parent).ledger ∧
    childInv (walkStep tree cuts genome s parent) := by
  rw [walkStep]
  split
  · exact ⟨ledgerLeq_refl _, hInv⟩
  · exact walkBody_inv tree cuts genome parent _ _ _ s hInv

theorem walkFold_inv (tree : List TreeRow) (cuts : List ℚ) (genome : String) :
    ∀ (parents : List Int) (s : WalkState), childInv s →
      ledgerLeq s.ledger ((parents.foldl (walkStep tree cuts genome) s).ledger) ∧
      childInv (parents.foldl (walkStep tree cuts genome) s) := by
  intro parents
  induction parents with
  | nil => intro s h; exact ⟨ledgerLeq_refl _, h⟩
  | cons p t ih =>
    intro s h
    obtain ⟨hL, hI⟩ := walkStep_inv tree cuts genome s p h
    obtain ⟨hL2, hI2⟩ := ih (walkStep tree cuts genome s p) hI
    exact ⟨ledgerLeq_trans hL hL2, hI2⟩

theorem mem_of_getLastQ {α : Type} {l : List α} {a : α}
    (h : l.getLast? = some a) : a ∈ l := by
  obtain ⟨hne, heq⟩ := List.mem_getLast?_eq_getLast (Option.mem_def.mpr h)
  exact heq ▸ List.getLast_mem hne

theorem isLower_of_getLast {tree : List TreeRow} {L : Ledger} {t : String}
    {pd : List Int} {n : Int}
    (h : (List.filter (fun p => decide (notGtdbBound (getInfo tree p) = true ∧
        withinTaxonBounds (getInfo tree p) t = true ∧ isLowerNode L p t = true))
        pd).getLast? = some n) : isLowerNode L n t = true := by
  have hm := mem_of_getLastQ h
  rw [List.mem_filter] at hm
  have h2 := hm.2
  simp only [decide_eq_true_eq] at h2
  exact h2.2.2

theorem fillStep_leq (tree : List TreeRow) (genome : String) (pd : List Int)
    (pre : List String) (taxon : String) (s : FillState) :
    ledgerLeq s.ledger (fillStep tree genome pd pre s taxon).ledger := by
  simp only [fillStep]
  repeat' split
  all_goals first
    | exact ledgerLeq_refl _
    | (rename_i heqG hcond
       rw [if_pos hcond] at heqG
       exact absurd heqG (by simp))
    | (rename_i heqG hcond
       rw [if_neg hcond] at heqG
       exact ledgerAddTaxon_leq _ _ _ _ (isLower_of_getLast heqG))

theorem fillFold_leq (tree : List TreeRow) (genome : String) (pd : List Int)
    (pre : List String) (ts : List String) (s : FillState) :
    ledgerLeq s.ledger ((ts.foldl (fillStep tree genome pd pre) s)).ledger := by
  induction ts generalizing s with
  | nil => exact ledgerLeq_refl _
  | cons t ts ih =>
    exact ledgerLeq_trans (fillStep_leq tree genome pd pre t s) (ih _)

theorem genomeStep_leq (tree : List TreeRow) (cuts : List ℚ) (dom : String)
    (ls : LoopState) (row : String × List Int) :
    ledgerLeq ls.ledger (genomeStep tree cuts dom ls row).ledger := by
  simp only [genomeStep]
  refine ledgerLeq_trans ?_ (fillFold_leq _ _ _ _ _ _)
  exact (walkFold_inv tree cuts row.1 row.2
    ⟨SixMap.const TaxVal.empty, none, ls.nodesOut, ls.ledger, false⟩
    (fun c rs hcrs => by simp at hcrs)).1

theorem loopFold_leq (tree : List TreeRow) (cuts : List ℚ) (dom : String)
    (rows : List (String × List Int)) (ls : LoopState) :
    ledgerLeq ls.ledger ((rows.foldl (genomeStep tree cuts dom) ls)).ledger := by
  induction rows generalizing ls with
  | nil => exact ledgerLeq_refl _
  | cons row rows ih =>
    exact ledgerLeq_trans (genomeStep_leq tree cuts dom ls row) (ih _)

theorem sixGet_set_same {α : Type} (m : SixMap α) (t : String) (v dflt : α)
    (ht : t ∈ taxa) : (m.set t v).get t dflt = v := by
  have h6 : t = "phylum" ∨ t = "class" ∨ t = "order" ∨ t = "family" ∨
      t = "genus" ∨ t = "species" := by simpa [taxa] using ht
  rcases h6 with rfl | rfl | rfl | rfl | rfl | rfl <;> rfl

theorem sixGet_set_ne {α : Type} (m : SixMap α) (t t' : String) (v dflt : α)
    (hne : ¬ t' = t) : (m.set t' v).get t dflt = m.get t dflt := by
  rw [SixMap.set]
  split_ifs with h1 h2 h3 h4 h5 h6
  · by_cases ht : t = "phylum"
    · exact absurd (h1.trans ht.symm) hne
    · rw [SixMap.get, SixMap.get, if_neg ht, if_neg ht]
  · by_cases ht : t = "class"
    · exact absurd (h2.trans ht.symm) hne
    · rw [SixMap.get, SixMap.get, if_neg ht, if_neg ht]
  · by_cases ht : t = "order"
    · exact absurd (h3.trans ht.symm) hne
    · rw [SixMap.get, SixMap.get, if_neg ht, if_neg ht]
  · by_cases ht : t = "family"
    · exact absurd (h4.trans ht.symm) hne
    · rw [SixMap.get, SixMap.get, if_neg ht, if_neg ht]
  · by_cases ht : t = "genus"
    · exact absurd (h5.trans ht.symm) hne
    · rw [SixMap.get, SixMap.get, if_neg ht, if_neg ht]
  · by_cases ht : t = "species"
    · exact absurd (h6.trans ht.symm) hne
    · rw [SixMap.get, SixMap.get, if_neg ht, if_neg ht]
  · rfl

theorem copyFold_skip (parent : Int) (d : List (String × String)) (r : String)
    (g : SixMap TaxVal) (dflt : TaxVal)
    (hr : ∀ p ∈ d, ¬ p.1 = r) :
    ((d.foldl (fun g tv =>
        g.set tv.1 (TaxVal.pair (NodeRef.anchor parent) (TaxInfo.str tv.2))) g).get r dflt)
      = g.get r dflt := by
  induction d generalizing g with
  | nil => rfl
  | cons kv tl ih =>
    rw [List.foldl_cons, ih _ (fun p hp => hr p (List.mem_cons_of_mem _ hp))]
    exact sixGet_set_ne g r kv.1 _ dflt (hr kv (List.mem_cons_self _ _))

theorem copyFold_get (parent : Int) (d : List (String × String)) (r v : String)
    (g : SixMap TaxVal) (hnd : (d.map Prod.fst).Nodup)
    (hr : alGet? d r = some v) (hrt : r ∈ taxa) :
    ((d.foldl (fun g tv =>
        g.set tv.1 (TaxVal.pair (NodeRef.anchor parent) (TaxInfo.str tv.2))) g).get r TaxVal.empty)
      = TaxVal.pair (NodeRef.anchor parent) (TaxInfo.str v) := by
  induction d generalizing g with
  | nil => simp [alGet?] at hr
  | cons kv tl ih =>
    rw [List.map_cons, List.nodup_cons] at hnd
    by_cases hk : kv.1 = r
    · have hv : kv.2 = v := by
        rw [alGet?, if_pos hk] at hr
        exact Option.some.inj hr
      rw [List.foldl_cons]
      have hnot : ∀ p ∈ tl, ¬ p.1 = r := by
        intro p hp he
        apply hnd.1
        have hm : p.1 ∈ List.map Prod.fst tl := List.mem_map_of_mem Prod.fst hp
        rw [he, ← hk] at hm
        exact hm
      rw [copyFold_skip parent tl r _ TaxVal.empty hnot, hk, hv]
      exact sixGet_set_same g r _ TaxVal.empty hrt
    · rw [alGet?, if_neg hk] at hr
      rw [List.foldl_cons]
      exact ih _ hnd.2 hr

theorem runStates_getD (tree : List TreeRow) (meta : List MetaRow) (dom : String)
    (cuts : List ℚ) (k : Nat) (hk : k < (runStates tree meta dom cuts).length) :
    (runStates tree meta dom cuts).getD k ⟨[], [], []⟩ =
      ((((treeGenomes tree meta).map
          (fun p => (p.1, findParents tree tree.length p.2))).take k).foldl
        (genomeStep tree (resolveCutoffs dom cuts) dom) ⟨[], [], []⟩) := by
  simp only [runStates] at hk ⊢
  rw [List.getD_eq_getElem _ _ hk]
  simp

theorem consultPhase_hit (tree : List TreeRow) (cuts : List ℚ) (parent : Int)
    (nreds : List String) (nb : String × String) (s : WalkState)
    (d : List (String × String)) (hd : alGet? s.ledger parent = some d) :
    consultPhase tree cuts parent nreds nb s =
      { s with
        gtax := d.foldl (fun g tv =>
          g.set tv.1 (TaxVal.pair (NodeRef.anchor parent) (TaxInfo.str tv.2))) s.gtax,
        stopped := true } := by
  rw [consultPhase, hd]

/-- **C4.** Once a `(node_id, rank) → clade_name` cell is written into the
`node_taxonomy` ledger during a `name_clades` run, it survives unchanged to
every later point of the run (walk writes go to fresh nodes and fill writes
are `is_lower_node`-guarded, so no later write overwrites it), and any later
genome whose ancestor walk consults that node copies exactly that clade name
into its own taxonomy for every rank recorded at the node. -/
theorem c4_ledger_write_once
    (tree : List TreeRow) (meta : List MetaRow) (dom : String) (cuts : List ℚ)
    (j k : Nat) (hjk : j ≤ k) (hk : k < (runStates tree meta dom cuts).length)
    (n : Int) (r v : String)
    (hv : lGet ((runStates tree meta dom cuts).getD j ⟨[], [], []⟩).ledger n r = some v) :
    lGet ((runStates tree meta dom cuts).getD k ⟨[], [], []⟩).ledger n r = some v ∧
    (∀ (nreds : List String) (nb : String × String) (g : SixMap TaxVal)
      (no : List NodeOut) (st : Bool) (d : List (String × String)),
      alGet? ((runStates tree meta dom cuts).getD k ⟨[], [], []⟩).ledger n = some d →
      (d.map Prod.fst).Nodup → r ∈ taxa →
      ((consultPhase tree (resolveCutoffs dom cuts) n nreds nb
          ⟨g, none, no, ((runStates tree meta dom cuts).getD k ⟨[], [], []⟩).ledger, st⟩).gtax.get
            r TaxVal.empty = TaxVal.pair (NodeRef.anchor n) (TaxInfo.str v) ∧
       (consultPhase tree (resolveCutoffs dom cuts) n nreds nb
          ⟨g, none, no, ((runStates tree meta dom cuts).getD k ⟨[], [], []⟩).ledger,
            st⟩).stopped = true)) := by
  have hj : j < (runStates tree meta dom cuts).length := Nat.lt_of_le_of_lt hjk hk
  rw [runStates_getD tree meta dom cuts j hj] at hv
  rw [runStates_getD tree meta dom cuts k hk]
  have h2 : j + (k - j) = k := Nat.add_sub_cancel' hjk
  rw [← h2, List.take_add, List.foldl_append]
  have hmono := loopFold_leq tree (resolveCutoffs dom cuts) dom
    ((((treeGenomes tree meta).map
      (fun p => (p.1, findParents tree tree.length p.2))).drop j).take (k - j))
    ((((treeGenomes tree meta).map
      (fun p => (p.1, findParents tree tree.length p.2))).take j).foldl
      (genomeStep tree (resolveCutoffs dom cuts) dom) ⟨[], [], []⟩)
  refine ⟨hmono n r v hv, ?_⟩
  intro nreds nb g no st d hd hnd hrt
  have hvk := hmono n r v hv
  rw [lGet_eq, hd, Option.some_bind] at hvk
  rw [consultPhase_hit tree (resolveCutoffs dom cuts) n nreds nb _ d hd]
  exact ⟨copyFold_get n d r v g hnd hvk hrt, rfl⟩

theorem c4_witness :
    lGet ((runStates cTree1 cMeta1 "d__Bacteria" []).getD 3 ⟨[], [], []⟩).ledger 10 "genus"
        = some "g__SPIREOTU_01842612" ∧
    (consultPhase cTree1 (resolveCutoffs "d__Bacteria" []) 10 [""] ("", "")
        ⟨SixMap.const TaxVal.empty, none, [],
          ((runStates cTree1 cMeta1 "d__Bacteria" []).getD 3 ⟨[], [], []⟩).ledger,
          false⟩).gtax.get "genus" TaxVal.empty
        = TaxVal.pair (NodeRef.anchor 10) (TaxInfo.str "g__SPIREOTU_01842612") := by
  have h := c4_ledger_write_once cTree1 cMeta1 "d__Bacteria" [] 1 3 (by decide) (by decide)
    10 "genus" "g__SPIREOTU_01842612" (by decide)
  exact ⟨h.1, (h.2 [""] ("", "") (SixMap.const TaxVal.empty) [] false
    [("genus", "g__SPIREOTU_01842612")] (by decide) (by decide) (by decide)).1⟩

theorem foldl_no_shape {α β : Type} (f : β → α → β) (proj : β → List NodeOut)
    (hstep : ∀ st x r, r ∈ proj (f st x) → r ∈ proj st ∨ cladeShapeOK r) :
    ∀ (l : List α) (st : β) (r : NodeOut),
      r ∈ proj (l.foldl f st) → r ∈ proj st ∨ cladeShapeOK r := by
  intro l
  induction l with
  | nil => intro st r h; exact Or.inl h
  | cons x xs ih =>
    intro st r h
    rcases ih (f st x) r h with h' | h'
    · exact hstep st x r h'
    · exact Or.inr h'

theorem strTake_len_le (s : String) (k : Nat) : (strTake s k).length ≤ k := by
  rw [strTake, String.length]
  exact List.length_take_le k s.data

theorem mintRanks_shape (genome : String) (c : Int) (ranks : List String)
    (g : SixMap TaxVal) (no : List NodeOut) :
    ∀ r ∈ (mintRanks genome c ranks g no).2.1, r ∈ no ∨ cladeShapeOK r := by
  intro r hr
  rw [mintRanks] at hr
  refine foldl_no_shape
    (fun st r =>
      let (g, no, tt) := st
      if g.get r TaxVal.empty = TaxVal.empty ∧ ¬ (r = "species") then
        let cladeName := strTake r 1 ++ "__" ++ genome
        (g.set r (TaxVal.pair (NodeRef.anchor c) (TaxInfo.str cladeName)),
         no ++ [⟨some c, cladeName, genome⟩],
         alSet tt r cladeName)
      else st)
    (fun st => st.2.1) ?_ ranks (g, no, []) r hr
  intro st x r' h
  obtain ⟨g', no', tt'⟩ := st
  by_cases hc : g'.get x TaxVal.empty = TaxVal.empty ∧ ¬ (x = "species")
  · rw [show ((fun st r =>
        let (g, no, tt) := st
        if g.get r TaxVal.empty = TaxVal.empty ∧ ¬ (r = "species") then
          let cladeName := strTake r 1 ++ "__" ++ genome
          (g.set r (TaxVal.pair (NodeRef.anchor c) (TaxInfo.str cladeName)),
           no ++ [⟨some c, cladeName, genome⟩],
           alSet tt r cladeName)
        else st) : SixMap TaxVal × List NodeOut × List (String × String) →
          String → SixMap TaxVal × List NodeOut × List (String × String))
        (g', no', tt') x
      = (g'.set x (TaxVal.pair (NodeRef.anchor c) (TaxInfo.str (strTake x 1 ++ "__" ++ genome))),
         no' ++ [⟨some c, strTake x 1 ++ "__" ++ genome, genome⟩],
         alSet tt' x (strTake x 1 ++ "__" ++ genome)) from if_pos hc] at h
    rcases List.mem_append.mp h with h' | h'
    · exact Or.inl h'
    · rw [List.mem_singleton] at h'
      subst h'
      exact Or.inr (Or.inl ⟨strTake x 1, rfl, strTake_len_le x 1⟩)
  · rw [show ((fun st r =>
        let (g, no, tt) := st
        if g.get r TaxVal.empty = TaxVal.empty ∧ ¬ (r = "species") then
          let cladeName := strTake r 1 ++ "__" ++ genome
          (g.set r (TaxVal.pair (NodeRef.anchor c) (TaxInfo.str cladeName)),
           no ++ [⟨some c, cladeName, genome⟩],
           alSet tt r cladeName)
        else st) : SixMap TaxVal × List NodeOut × List (String × String) →
          String → SixMap TaxVal × List NodeOut × List (String × String))
        (g', no', tt') x = (g', no', tt') from if_neg hc] at h
    exact Or.inl h

theorem pendingPhase_shape (tree : List TreeRow) (cuts : List ℚ) (genome : String)
    (parent : Int) (nreds : List String) (nb : String × String) (skip0 : Bool)
    (s : WalkState) :
    ∀ r ∈ (pendingPhase tree cuts genome parent nreds nb skip0 s).1.nodesOut,
      r ∈ s.nodesOut ∨ cladeShapeOK r := by
  intro r hr
  obtain ⟨gtax, child, nodesOut, ledger, stopped⟩ := s
  cases child with
  | none => exact Or.inl hr
  | some cc =>
    obtain ⟨c0, cranks⟩ := cc
    simp only [pendingPhase] at hr
    split at hr
    · exact Or.inl hr
    · rename_i ranks skip heq
      exact mintRanks_shape genome c0 ranks gtax nodesOut r hr

theorem consultPhase_nodesOut (tree : List TreeRow) (cuts : List ℚ) (parent : Int)
    (nreds : List String) (nb : String × String) (s : WalkState) :
    (consultPhase tree cuts parent nreds nb s).nodesOut = s.nodesOut := by
  simp only [consultPhase]
  repeat' split
  all_goals rfl

theorem walkStep_shape (tree : List TreeRow) (cuts : List ℚ) (genome : String)
    (s : WalkState) (parent : Int) :
    ∀ r ∈ (walkStep tree cuts genome s parent).nodesOut,
      r ∈ s.nodesOut ∨ cladeShapeOK r := by
  intro r hr
  rw [walkStep] at hr
  split at hr
  · exact Or.inl hr
  · rw [walkBody] at hr
    split at hr
    · exact pendingPhase_shape tree cuts genome parent _ _ _ s r hr
    · rw [consultPhase_nodesOut] at hr
      exact pendingPhase_shape tree cuts genome parent _ _ _ s r hr

theorem walkFold_shape (tree : List TreeRow) (cuts : List ℚ) (genome : String)
    (parents : List Int) (s : WalkState) :
    ∀ r ∈ (parents.foldl (walkStep tree cuts genome) s).nodesOut,
      r ∈ s.nodesOut ∨ cladeShapeOK r :=
  foldl_no_shape (walkStep tree cuts genome) WalkState.nodesOut
    (fun st x r h => walkStep_shape tree cuts genome st x r h) parents s

theorem ite_fill_nodesOut (c : Prop) [inst : Decidable c] (g : SixMap TaxVal)
    (f : SixMap Bool) (sp1 sp2 : String) (no : List NodeOut) (L : Ledger) :
    (if c then (⟨g, f, sp1, no, L⟩ : FillState) else ⟨g, f, sp2, no, L⟩).nodesOut = no := by
  split <;> rfl

theorem fillStep_rows (tree : List TreeRow) (genome : String) (pd : List Int)
    (pre : List String) (taxon : String) (s : FillState)
    (hsp : s.speciesName = "" ∨ ∃ x, s.speciesName = "s" ++ x ++ " " ++ genome) :
    ∀ r ∈ (fillStep tree genome pd pre s taxon).nodesOut,
      r ∈ s.nodesOut ∨ cladeShapeOK r := by
  intro r hr
  simp only [fillStep] at hr
  split at hr
  · exact Or.inl hr
  · split at hr
    · exact Or.inl hr
    · rw [ite_fill_nodesOut] at hr
      exact Or.inl hr
  · by_cases hf : s.fill.get taxon false = true
    · rw [if_pos hf] at hr
      by_cases hg : taxon = "species" ∧ s.speciesName = ""
      · rw [if_pos hg] at hr
        exact Or.inl hr
      · rw [if_neg hg] at hr
        by_cases hT : taxon = "species"
        · rw [if_pos hT] at hr
          rw [ite_fill_nodesOut] at hr
          rcases List.mem_append.mp hr with h1 | h1
          · exact Or.inl h1
          · rw [List.mem_singleton] at h1
            subst h1
            rcases hsp with h0 | ⟨x, hx⟩
            · exact absurd ⟨hT, h0⟩ hg
            · exact Or.inr (Or.inr ⟨x, hx⟩)
        · rw [if_neg hT] at hr
          rw [ite_fill_nodesOut] at hr
          rcases List.mem_append.mp hr with h1 | h1
          · exact Or.inl h1
          · rw [List.mem_singleton] at h1
            subst h1
            exact Or.inr (Or.inl ⟨strTake taxon 1, rfl, strTake_len_le taxon 1⟩)
    · rw [if_neg hf] at hr
      exact Or.inl hr

theorem speciesFromGenus_shape (cn genome : String) :
    ∃ x, speciesFromGenus cn genome = "s" ++ x ++ " " ++ genome :=
  ⟨strDrop cn ((substrIdx? cn "g__").getD 0 + 1), rfl⟩

theorem fillStep_species (tree : List TreeRow) (genome : String) (pd : List Int)
    (pre : List String) (taxon : String) (s : FillState)
    (hsp : s.speciesName = "" ∨ ∃ x, s.speciesName = "s" ++ x ++ " " ++ genome) :
    (fillStep tree genome pd pre s taxon).speciesName = "" ∨
      ∃ x, (fillStep tree genome pd pre s taxon).speciesName
        = "s" ++ x ++ " " ++ genome := by
  simp only [fillStep]
  repeat' split
  all_goals first
    | exact hsp
    | exact Or.inr (speciesFromGenus_shape _ genome)

theorem fillFold_shape (tree : List TreeRow) (genome : String) (pd : List Int)
    (pre : List String) (ts : List String) (s : FillState)
    (hsp : s.speciesName = "" ∨ ∃ x, s.speciesName = "s" ++ x ++ " " ++ genome) :
    ∀ r ∈ ((ts.foldl (fillStep tree genome pd pre) s)).nodesOut,
      r ∈ s.nodesOut ∨ cladeShapeOK r := by
  induction ts generalizing s with
  | nil => exact fun r h => Or.inl h
  | cons t ts ih =>
    intro r h
    rcases ih (fillStep tree genome pd pre s t)
        (fillStep_species tree genome pd pre t s hsp) r h with h' | h'
    · exact fillStep_rows tree genome pd pre t s hsp r h'
    · exact Or.inr h'

theorem genomeStep_shape (tree : List TreeRow) (cuts : List ℚ) (dom : String)
    (ls : LoopState) (row : String × List Int) :
    ∀ r ∈ (genomeStep tree cuts dom ls row).nodesOut,
      r ∈ ls.nodesOut ∨ cladeShapeOK r := by
  intro r hr
  simp only [genomeStep] at hr
  rcases fillFold_shape tree row.1 (dedupFirst row.2) _ taxa _ (Or.inl rfl) r hr
    with h' | h'
  · exact walkFold_shape tree cuts row.1 row.2
      ⟨SixMap.const TaxVal.empty, none, ls.nodesOut, ls.ledger, false⟩ r h'
  · exact Or.inr h'

theorem nameClades_shape (tree : List TreeRow) (meta : List MetaRow) (dom : String)
    (cuts : List ℚ) :
    ∀ r ∈ (nameClades tree meta dom cuts).2, cladeShapeOK r := by
  intro r hr
  simp only [nameClades] at hr
  rw [mem_sortByLe] at hr
  rcases foldl_no_shape (genomeStep tree (resolveCutoffs dom cuts) dom)
      LoopState.nodesOut
      (fun st x r h => genomeStep_shape tree (resolveCutoffs dom cuts) dom st x r h)
      ((treeGenomes tree meta).map (fun p => (p.1, findParents tree tree.length p.2)))
      ⟨[], [], []⟩ r hr with h' | h'
  · exact absurd h' (List.not_mem_nil r)
  · exact h'

theorem fillTaxRow_shape (tree : List TreeRow) (gtdb : List (String × String))
    (st : FillTaxState) (row : String × String) :
    ∀ r ∈ (fillTaxRow tree gtdb st row).newTax, r ∈ st.newTax ∨ cladeShapeOK r := by
  intro r hr
  simp only [fillTaxRow] at hr
  split at hr
  · exact Or.inl hr
  · repeat' split at hr
    all_goals first
      | exact Or.inl hr
      | (rcases List.mem_append.mp hr with h1 | h1
         · exact Or.inl h1
         · rw [List.mem_singleton] at h1
           subst h1
           exact Or.inr (Or.inr (speciesFromGenus_shape _ _)))

/-- **C7 (amended).** Clade-name uniqueness does not hold in general (see the
counterexample below); what the code does guarantee is the mechanism the spec
cites for it: every clade name in the node-naming output — as produced by
`name_clades` and as extended by `fill_taxonomy` — embeds the id of its
representative genome, being either a rank mint `<letter>__<rep>` or a
species label `s<genus-local> <rep>`. -/
theorem c7_clade_shape (tree : List TreeRow) (meta : List MetaRow) (dom : String)
    (cuts : List ℚ) (gtdb : List (String × String)) :
    ∀ r ∈ (pipeline tree meta dom cuts gtdb).2, cladeShapeOK r := by
  intro r hr
  simp only [pipeline, fillTaxonomy] at hr
  rw [mem_sortByLe] at hr
  rcases List.mem_append.mp hr with h1 | h1
  · exact nameClades_shape tree meta dom cuts r h1
  · rcases foldl_no_shape (fillTaxRow tree gtdb) FillTaxState.newTax
        (fun st x r h => fillTaxRow_shape tree gtdb st x r h)
        (nameClades tree meta dom cuts).1 ⟨[], [], []⟩ r h1 with h' | h'
    · exact absurd h' (List.not_mem_nil r)
    · exact h'

theorem c7_witness :
    cladeShapeOK ⟨some 100000, "c__SPIREOTU_01842612", "SPIREOTU_01842612"⟩ :=
  c7_clade_shape cTree1 cMeta1 "d__Bacteria" [] []
    ⟨some 100000, "c__SPIREOTU_01842612", "SPIREOTU_01842612"⟩ (by decide)

/-- **C7 (counterexample).** With a genome that appears twice in the metadata
table (a duplicated metadata row), the species clade `s__DG DG` is minted
twice, so `clade` values are *not* unique in the node-naming output — neither
in the `name_clades` output nor after `fill_taxonomy`. -/
theorem c7_counterexample :
    ¬ ((nameClades cTreeDup cMetaDup "d__Bacteria" []).2.map
        (fun r => r.clade)).Nodup ∧
    ((pipeline cTreeDup cMetaDup "d__Bacteria" [] []).2.filter
        (fun r => r.clade = "s__DG DG")).length = 2 := by
  constructor
  · decide
  · decide

theorem fillTaxRow_gOut (tree : List TreeRow) (gtdb : List (String × String))
    (st : FillTaxState) (row : String × String) :
    ∃ o, (fillTaxRow tree gtdb st row).gOut = st.gOut ++ [o] ∧
      (strStarts row.2 "d__" = true → o = row) := by
  simp only [fillTaxRow]
  split
  · exact ⟨row, rfl, fun _ => rfl⟩
  · rename_i hnd
    repeat' split
    all_goals exact ⟨_, rfl, fun h => absurd h hnd⟩

theorem fillTaxFold_gOut (tree : List TreeRow) (gtdb : List (String × String)) :
    ∀ (rows : List (String × String)) (st : FillTaxState),
      ∃ L, (rows.foldl (fillTaxRow tree gtdb) st).gOut = st.gOut ++ L ∧
        L.length = rows.length ∧
        ∀ k, k < rows.length → strStarts (rows.getD k ("", "")).2 "d__" = true →
          L.getD k ("", "") = rows.getD k ("", "") := by
  intro rows
  induction rows with
  | nil => exact fun st => ⟨[], by simp, rfl, fun k hk _ => absurd hk (by simp)⟩
  | cons row rest ih =>
    intro st
    obtain ⟨o, ho, hod⟩ := fillTaxRow_gOut tree gtdb st row
    obtain ⟨L', hL', hlen, hkeep⟩ := ih (fillTaxRow tree gtdb st row)
    refine ⟨o :: L', ?_, ?_, ?_⟩
    · rw [List.foldl_cons, hL', ho, List.append_assoc]
      rfl
    · rw [List.length_cons, hlen, List.length_cons]
    · intro k hk hd
      cases k with
      | zero =>
        rw [List.getD_cons_zero]
        exact hod hd
      | succ k =>
        rw [List.getD_cons_succ, List.getD_cons_succ]
        exact hkeep k (Nat.lt_of_succ_lt_succ hk) hd

theorem fillTaxRow_newTax (tree : List TreeRow) (gtdb : List (String × String))
    (st : FillTaxState) (row : String × String) :
    ∀ x ∈ (fillTaxRow tree gtdb st row).newTax,
      x ∈ st.newTax ∨ (¬ strStarts row.2 "d__" = true ∧ x.genomeRep = row.1) := by
  intro x hx
  simp only [fillTaxRow] at hx
  split at hx
  · exact Or.inl hx
  · rename_i hnd
    repeat' split at hx
    all_goals first
      | exact Or.inl hx
      | (rcases List.mem_append.mp hx with h1 | h1
         · exact Or.inl h1
         · rw [List.mem_singleton] at h1
           subst h1
           exact Or.inr ⟨hnd, rfl⟩)

theorem fillTaxFold_newTax (tree : List TreeRow) (gtdb : List (String × String)) :
    ∀ (rows : List (String × String)) (st : FillTaxState) (x : NodeOut),
      x ∈ (rows.foldl (fillTaxRow tree gtdb) st).newTax →
      x ∈ st.newTax ∨ ∃ row ∈ rows, ¬ strStarts row.2 "d__" = true ∧
        x.genomeRep = row.1 := by
  intro rows
  induction rows with
  | nil => exact fun st x hx => Or.inl hx
  | cons row rest ih =>
    intro st x hx
    rcases ih (fillTaxRow tree gtdb st row) x hx with h' | h'
    · rcases fillTaxRow_newTax tree gtdb st row x h' with h2 | h2
      · exact Or.inl h2
      · exact Or.inr ⟨row, List.mem_cons_self _ _, h2⟩
    · obtain ⟨r0, hr0, h2⟩ := h'
      exact Or.inr ⟨r0, List.mem_cons_of_mem _ hr0, h2⟩

/-- **C10.** `fill_taxonomy` leaves already-complete taxonomies untouched:
the output genome table has one row per input row, every input row whose
taxonomy starts with `"d__"` passes through to the same position unchanged,
and every node-naming row of the output beyond the incoming ones was minted
for some input row that does *not* start with `"d__"` (so no new entry is
appended on account of an already-complete genome). -/
theorem c10_complete_rows_untouched (tree : List TreeRow)
    (rows : List (String × String)) (nn : List NodeOut)
    (gtdb : List (String × String)) :
    (fillTaxonomy tree rows nn gtdb).1.length = rows.length ∧
    (∀ k, k < rows.length → strStarts (rows.getD k ("", "")).2 "d__" = true →
      (fillTaxonomy tree rows nn gtdb).1.getD k ("", "") = rows.getD k ("", "")) ∧
    (∀ x ∈ (fillTaxonomy tree rows nn gtdb).2, x ∈ nn ∨
      ∃ row ∈ rows, ¬ strStarts row.2 "d__" = true ∧ x.genomeRep = row.1) := by
  obtain ⟨L, hL, hlen, hkeep⟩ := fillTaxFold_gOut tree gtdb rows ⟨[], [], []⟩
  have h1 : (fillTaxonomy tree rows nn gtdb).1 = L := by
    simp only [fillTaxonomy]
    rw [hL]
    rfl
  refine ⟨by rw [h1, hlen], ?_, ?_⟩
  · intro k hk hd
    rw [h1]
    exact hkeep k hk hd
  · intro x hx
    simp only [fillTaxonomy] at hx
    rw [mem_sortByLe] at hx
    rcases List.mem_append.mp hx with h2 | h2
    · exact Or.inl h2
    · rcases fillTaxFold_newTax tree gtdb rows ⟨[], [], []⟩ x h2 with h3 | h3
      · exact absurd h3 (List.not_mem_nil x)
      · exact Or.inr h3

theorem c10_witness :
    (fillTaxonomy [] [("G1", "d__B;p__P")] [] []).1.getD 0 ("", "")
      = ("G1", "d__B;p__P") :=
  (c10_complete_rows_untouched [] [("G1", "d__B;p__P")] [] []).2.1 0
    (by decide) (by decide)
